import Mathlib

/-!
Verification development for the Pilog landing/flight correlation engine
(`src/app.py`).  The Python source is shallowly embedded: dynamically typed
record dictionaries become structures, the matching engine `recompute_links`
becomes a pure function from its inputs (flight list, landing list, manual
override mapping, cluster window) to the two link maps, and Python dicts
keyed by int become insertion-ordered association lists.  Floating point
sensor fields (`hours`, `VS`, `G`, ...) are never read by the matching
engine and are omitted from the record structures.
-/

namespace Pilog

/-! ## Data model (app.py: parse_logbook / parse_landing_rates record shapes) -/

/-- FlightRecord as produced by `parse_logbook` (app.py lines 337-384).
The float field `hours` is omitted: the matching engine never reads it. -/
structure Flight where
  date : String
  dep : String
  arr : String
  landings : Int
  tail : String
  aircraft : String
  norm_ac : String
deriving DecidableEq, Repr

/-- LandingRecord as produced by `parse_landing_rates` (app.py lines 269-334).
The optional float sensor fields (VS, G, nose_rate, float, Q, Qrad_abs) and
`quality` are omitted: the matching engine never reads them. -/
structure Landing where
  time : String
  date : String
  aircraft : String
  norm_ac : String
deriving DecidableEq, Repr

/-! ## normalize_aircraft (app.py lines 250-266) -/

/-- Boolean test that `pat` is a list-prefix of `l`
(Python `token.startswith(...)`). -/
def listPrefixB : List Char → List Char → Bool
  | [], _ => true
  | _ :: _, [] => false
  | a :: as, b :: bs => a = b && listPrefixB as bs

/-- Boolean substring test (Python `pat in token`). -/
def substrB (pat : List Char) : List Char → Bool
  | [] => pat.isEmpty
  | c :: rest => listPrefixB pat (c :: rest) || substrB pat rest

/-- `re.sub(r"[^A-Za-z0-9]", "", str(name)).upper()`: keep ASCII
alphanumerics, then upper-case (on ASCII alphanumerics Python `str.upper`
agrees with `Char.toUpper`). -/
def stripUpper (s : String) : String :=
  String.mk ((s.data.filter fun c => c.isAlphanum).map Char.toUpper)

/-- `normalize_aircraft` (app.py lines 250-266), translated clause by
clause, including the redundant `CESSNA172SP` / `ZB738` disjuncts. -/
def normalize_aircraft (name : String) : String :=
  if name = "" then ""
  else
    let token := stripUpper name
    if listPrefixB ("C172".data) token.data || substrB ("CESSNA172".data) token.data
        || substrB ("CESSNA172SP".data) token.data then ("C172")
    else if substrB ("B738".data) token.data || substrB ("B737800".data) token.data
        || listPrefixB ("ZB738".data) token.data then ("B738")
    else token

/-- The normalization as the spec and claim C9 word it: strip
non-alphanumerics and upper-case; a stripped token starting with C172 or
containing CESSNA172 maps to C172; one containing B738 or B737800 maps to
B738; every other label passes through unchanged. -/
def normalizeSpec (name : String) : String :=
  let token := stripUpper name
  if listPrefixB ("C172".data) token.data || substrB ("CESSNA172".data) token.data then ("C172")
  else if substrB ("B738".data) token.data || substrB ("B737800".data) token.data then ("B738")
  else token

/-! ## Timestamp parsing (app.py `_parse_dt_safe`, lines 757-766)

`_parse_dt_safe` first tries `datetime.strptime(s, "%Y-%m-%d %H:%M:%S")`,
then falls back to `datetime.fromisoformat` after replacing "/" with "-"
and "T" with " ".  We model a parsed datetime as an `Int` count of seconds
on the proleptic Gregorian calendar (Python's `toordinal` day number times
86400 plus the seconds of the day); only differences of these values are
ever used (`total_seconds` of a datetime difference).  The canonical
19-character form is modelled exactly; the iso fallback is modelled for
the date-only, minutes and seconds variants.  Note every parseable `time`
value reaching the engine is canonical, because `parse_landing_rates`
re-renders parsed timestamps with `strftime("%Y-%m-%d %H:%M:%S")`. -/

def digitVal (c : Char) : Nat := c.toNat - ('0').toNat

def natOfDigits (cs : List Char) : Nat := cs.foldl (fun a c => a * 10 + digitVal c) 0

def isLeapYear (y : Nat) : Bool := (y % 4 == 0 && y % 100 != 0) || y % 400 == 0

def daysInMonth (y mo : Nat) : Nat :=
  if mo = 2 then (if isLeapYear y then 29 else 28)
  else if mo = 4 ∨ mo = 6 ∨ mo = 9 ∨ mo = 11 then 30 else 31

/-- Days in the months of the year strictly before month `mo` (common year). -/
def monthOffset : Nat → Nat
  | 1 => 0 | 2 => 31 | 3 => 59 | 4 => 90 | 5 => 120 | 6 => 151
  | 7 => 181 | 8 => 212 | 9 => 243 | 10 => 273 | 11 => 304 | 12 => 334
  | _ => 0

/-- Day number of y-mo-d in the proleptic Gregorian calendar
(Python `datetime.toordinal` up to a constant offset). -/
def toOrdinal (y mo d : Nat) : Nat :=
  let p := y - 1
  365 * p + p / 4 - p / 100 + p / 400 + monthOffset mo
    + (if 2 < mo && isLeapYear y then 1 else 0) + (d - 1)

/-- Validate the field ranges `datetime` enforces and build the seconds
value. -/
def mkTimestamp (y mo d h mi s : Nat) : Option Int :=
  if 1 ≤ y ∧ y ≤ 9999 ∧ 1 ≤ mo ∧ mo ≤ 12 ∧ 1 ≤ d ∧ d ≤ daysInMonth y mo
      ∧ h ≤ 23 ∧ mi ≤ 59 ∧ s ≤ 59 then
    some ((toOrdinal y mo d : Int) * 86400 + h * 3600 + mi * 60 + s)
  else none

def allDigits (cs : List Char) : Bool := cs.all Char.isDigit

/-- `datetime.strptime(s, "%Y-%m-%d %H:%M:%S")` on the canonical
19-character form. -/
def parseCanonical (cs : List Char) : Option Int :=
  match cs with
  | [y1,y2,y3,y4,a,mo1,mo2,b,d1,d2,c,h1,h2,e,mi1,mi2,f,se1,se2] =>
    if a = '-' ∧ b = '-' ∧ c = ' ' ∧ e = ':' ∧ f = ':'
        ∧ allDigits [y1,y2,y3,y4,mo1,mo2,d1,d2,h1,h2,mi1,mi2,se1,se2] then
      mkTimestamp (natOfDigits [y1,y2,y3,y4]) (natOfDigits [mo1,mo2]) (natOfDigits [d1,d2])
        (natOfDigits [h1,h2]) (natOfDigits [mi1,mi2]) (natOfDigits [se1,se2])
    else none
  | _ => none

/-- `datetime.fromisoformat` after the separator replacement: date only,
date plus HH:MM, or date plus HH:MM:SS. -/
def parseIsoLike (cs : List Char) : Option Int :=
  match cs with
  | [y1,y2,y3,y4,a,mo1,mo2,b,d1,d2] =>
    if a = '-' ∧ b = '-' ∧ allDigits [y1,y2,y3,y4,mo1,mo2,d1,d2] then
      mkTimestamp (natOfDigits [y1,y2,y3,y4]) (natOfDigits [mo1,mo2]) (natOfDigits [d1,d2]) 0 0 0
    else none
  | [y1,y2,y3,y4,a,mo1,mo2,b,d1,d2,c,h1,h2,e,mi1,mi2] =>
    if a = '-' ∧ b = '-' ∧ c = ' ' ∧ e = ':'
        ∧ allDigits [y1,y2,y3,y4,mo1,mo2,d1,d2,h1,h2,mi1,mi2] then
      mkTimestamp (natOfDigits [y1,y2,y3,y4]) (natOfDigits [mo1,mo2]) (natOfDigits [d1,d2])
        (natOfDigits [h1,h2]) (natOfDigits [mi1,mi2]) 0
    else none
  | _ => parseCanonical cs

def replaceSeps (c : Char) : Char := if c = '/' then '-' else if c = 'T' then ' ' else c

/-- `_parse_dt_safe` (app.py lines 757-766): strict strptime, then the
fromisoformat fallback on the separator-normalized string. -/
def parse_dt_safe (s : String) : Option Int :=
  match parseCanonical s.data with
  | some t => some t
  | none => parseIsoLike (s.data.map replaceSeps)

/-! ## Group items and sorting -/

/-- The `{"idx": idx, "flight": f}` entries of `flights_by_group`. -/
structure FItem where
  idx : Nat
  flight : Flight
deriving DecidableEq, Repr

/-- The `{"idx": i, "landing": l}` entries of `landings_by_group`. -/
structure LItem where
  idx : Nat
  landing : Landing
deriving DecidableEq, Repr

/-- Python string comparison (lexicographic by code point), as used by the
sort key `x["landing"].get("time")`. -/
def charsLeB : List Char → List Char → Bool
  | [], _ => true
  | _ :: _, [] => false
  | a :: as, b :: bs => if a < b then true else if b < a then false else charsLeB as bs

def timeLeB (a b : LItem) : Bool := charsLeB a.landing.time.data b.landing.time.data

/-- Stable insertion of `x` in front of the first entry with a key not
below it. -/
def insertByTime (x : LItem) : List LItem → List LItem
  | [] => [x]
  | y :: ys => if timeLeB x y then x :: y :: ys else y :: insertByTime x ys

/-- Python's stable ascending `list.sort(key=time string)`, modelled as a
stable insertion sort (any two stable sorts by the same key agree).  The
clustering step's re-sort uses the key `time or ""`, which coincides with
`time` because the field is always a string. -/
def sortByTime : List LItem → List LItem
  | [] => []
  | x :: xs => insertByTime x (sortByTime xs)

/-! ## Grouping (app.py lines 672-685) -/

def fkey (f : Flight) : String × String := (f.date, f.norm_ac)

def lkey (l : Landing) : String × String := (l.date, l.norm_ac)

/-- `enumerate(flights)` filtered to flights declaring at least one
landing (`int(f.get("landings", 0)) >= 1`). -/
def flightItems (flights : List Flight) : List FItem :=
  (flights.enum.filter fun p => decide (1 ≤ p.2.landings)).map fun p => ⟨p.1, p.2⟩

def landingItems (landings : List Landing) : List LItem :=
  landings.enum.map fun p => ⟨p.1, p.2⟩

/-- `flights_by_group[key]` (empty when the key is absent). -/
def groupFlightItems (flights : List Flight) (k : String × String) : List FItem :=
  (flightItems flights).filter fun it => decide (fkey it.flight = k)

def groupLandingItemsRaw (landings : List Landing) (k : String × String) : List LItem :=
  (landingItems landings).filter fun it => decide (lkey it.landing = k)

/-- `landings_by_group[key]`, sorted by time within the group. -/
def groupLandingItems (landings : List Landing) (k : String × String) : List LItem :=
  sortByTime (groupLandingItemsRaw landings k)

/-- First-occurrence deduplication: the insertion order of the keys of a
Python dict built by appending. -/
def dedupFirst : List (String × String) → List (String × String)
  | [] => []
  | k :: ks => k :: ((dedupFirst ks).filter fun x => decide (x ≠ k))

/-- The iteration order of `landings_by_group.items()`. -/
def groupKeysOf (landings : List Landing) : List (String × String) :=
  dedupFirst (landings.map lkey)

/-! ## Link result model -/

/-- One `landing_links` value: `flightIndex` is `none` exactly when the
Python dict stores `{"flight": None, ...}` (the `"flight"` field itself is
determined by the index, so it is not repeated here). -/
structure LinkInfo where
  flightIndex : Option Nat
  linkConfidence : String
deriving DecidableEq, Repr

/-- The output of the engine: `landing_links` and the append events of
`flight_to_landing_indices`, both as insertion-ordered lists. -/
structure LinkState where
  links : List (Nat × LinkInfo)
  assigns : List (Nat × Nat)
deriving DecidableEq, Repr

/-- `flight_to_landing_indices[f]`: the landing indices appended for
flight `f`, in append order. -/
def flightLandings (st : LinkState) (f : Nat) : List Nat :=
  (st.assigns.filter fun p => p.1 == f).map Prod.snd

/-- The entries and assignment events one group contributes. -/
structure GroupOut where
  entries : List (Nat × LinkInfo)
  assigns : List (Nat × Nat)
deriving DecidableEq, Repr

/-! ## Manual overrides (app.py lines 701-718) -/

/-- The bounds check of the manual-override loop: an override value is
applied only when it is an in-range index of the full flight list
(`isinstance(fidx, int) and 0 <= fidx < len(flights)`). -/
def appliedOv (flights : List Flight) (overrides : Nat → Option Int) (li : Nat) : Option Nat :=
  match overrides li with
  | some f => if 0 ≤ f ∧ f < (flights.length : Int) then some f.toNat else none
  | none => none

/-- `overridden_flight_indices` collected over the group's landing list. -/
def ovFlightsFn (ao : Nat → Option Nat) (litems : List LItem) : List Nat :=
  litems.filterMap fun it => ao it.idx

/-- `working_landings`: group landings without a validly overridden index. -/
def workingL (ao : Nat → Option Nat) (litems : List LItem) : List LItem :=
  litems.filter fun it => (ao it.idx).isNone

/-- `working_flights`: group flights whose index no valid override targets. -/
def workingF (ao : Nat → Option Nat) (litems : List LItem) (fitems : List FItem) : List FItem :=
  fitems.filter fun it => ! (ovFlightsFn ao litems).contains it.idx

/-! ## Heuristic cascade (app.py lines 720-858) -/

/-- `int(max(0, f["flight"].get("landings", 0)))`. -/
def declaredOf (f : Flight) : Nat := f.landings.toNat

def sumDeclared (wf : List FItem) : Nat := (wf.map fun it => declaredOf it.flight).sum

/-- The clustering loop body (app.py lines 772-796).  `lastDt` is the
parse result of the previous item (`last_dt`), `cur` the cluster under
construction, `acc` the closed clusters.  A delta exists only when both
neighbours parse; `delta_min <= cluster_minutes` is
`|b - a| seconds ≤ 60 * w` exactly. -/
def clusterGo (w : Int) : Option Int → List LItem → List (List LItem) → List LItem → List (List LItem)
  | _, cur, acc, [] => acc ++ [cur]
  | lastDt, cur, acc, it :: rest =>
    let dt := parse_dt_safe it.landing.time
    let joined :=
      match lastDt, dt with
      | some a, some b => decide (((b - a).natAbs : Int) ≤ 60 * w)
      | _, _ => false
    if joined then clusterGo w dt (cur ++ [it]) acc rest
    else clusterGo w dt [it] (acc ++ [cur]) rest

/-- The clustering step over the (re-)time-sorted working landings. -/
def clusterize (w : Int) : List LItem → List (List LItem)
  | [] => []
  | it :: rest => clusterGo w (parse_dt_safe it.landing.time) [it] [] rest

/-- The pairwise join condition: `it` extends the cluster ending in
`prev` iff both timestamps parse and differ by at most the window. -/
def joinCond (w : Int) (prev it : LItem) : Bool :=
  match parse_dt_safe prev.landing.time, parse_dt_safe it.landing.time with
  | some a, some b => decide (((b - a).natAbs : Int) ≤ 60 * w)
  | _, _ => false

/-- Cluster distribution by declared counts (app.py lines 815-828): each
working flight consumes its declared number of whole clusters, stopping
when the clusters run out. -/
def distClusters : List FItem → List (List LItem) → GroupOut
  | [], _ => ⟨[], []⟩
  | fref :: fs, cs =>
    let k := declaredOf fref.flight
    let taken := cs.take k
    let rest := distClusters fs (cs.drop k)
    ⟨(taken.flatMap fun cl => cl.map fun it => (it.idx, ⟨some fref.idx, "cluster-assigned"⟩)) ++ rest.entries,
     (taken.flatMap fun cl => cl.map fun it => (fref.idx, it.idx)) ++ rest.assigns⟩

/-- Count-based distribution (app.py lines 839-849): each working flight
consumes its declared number of individual landings in time order; the
unconsumed suffix is returned for the ambiguous-marking loop. -/
def distCount : List FItem → List LItem → GroupOut × List LItem
  | [], ls => (⟨[], []⟩, ls)
  | fref :: fs, ls =>
    let k := declaredOf fref.flight
    let taken := ls.take k
    let rest := distCount fs (ls.drop k)
    (⟨(taken.map fun it => (it.idx, ⟨some fref.idx, "count-assigned"⟩)) ++ rest.1.entries,
      (taken.map fun it => (fref.idx, it.idx)) ++ rest.1.assigns⟩,
     rest.2)

/-- Heuristics after the one-to-one check (app.py lines 742-858): the
equal-counts sequence rule, the two clustering rules, the count-based
distribution and the ambiguous fallback, in the source's priority order.
In the cluster-assigned branch the Python leftover check
`it["idx"] not in assigned and it["idx"] not in landing_links` reduces to
the first conjunct: within a run each landing index belongs to exactly
one group and the working pool excludes the group's overridden (already
linked) landings, so no working landing is in `landing_links` before this
heuristic adds it. -/
def cascadeHeuristics (w : Int) (wf : List FItem) (wl : List LItem) : GroupOut :=
  if wf.length = wl.length ∧ 0 < wf.length then
    ⟨(wl.zip wf).map fun p => (p.1.idx, ⟨some p.2.idx, "sequence-assumed"⟩),
     (wl.zip wf).map fun p => (p.2.idx, p.1.idx)⟩
  else
    let clusters := clusterize w (sortByTime wl)
    let totalDeclared := sumDeclared wf
    if clusters.length ≠ 0 ∧ clusters.length = wf.length ∧ 0 < wf.length then
      ⟨(clusters.zip wf).flatMap fun p => p.1.map fun it => (it.idx, ⟨some p.2.idx, "cluster-sequence"⟩),
       (clusters.zip wf).flatMap fun p => p.1.map fun it => (p.2.idx, it.idx)⟩
    else if clusters.length ≠ 0 ∧ totalDeclared = clusters.length ∧ 0 < totalDeclared then
      let d := distClusters wf clusters
      let assignedIdx := d.entries.map Prod.fst
      ⟨d.entries ++ ((wl.filter fun it => ! assignedIdx.contains it.idx).map fun it =>
          (it.idx, ⟨none, "ambiguous"⟩)),
       d.assigns⟩
    else if 0 < wl.length ∧ wl.length = totalDeclared ∧ 0 < totalDeclared then
      let d := distCount wf wl
      ⟨d.1.entries ++ (d.2.map fun it => (it.idx, ⟨none, "ambiguous"⟩)), d.1.assigns⟩
    else
      ⟨wl.map fun it => (it.idx, ⟨none, "ambiguous"⟩), []⟩

/-- The heuristic cascade over a group's post-override working pools
(app.py lines 720-858): no working flights, one-to-one, then
`cascadeHeuristics`. -/
def cascade (w : Int) (wf : List FItem) (wl : List LItem) : GroupOut :=
  if wf.length = 0 ∧ 0 < wl.length then
    ⟨wl.map fun it => (it.idx, ⟨none, "unmatched"⟩), []⟩
  else
    match wf, wl with
    | [fref], [item] =>
      ⟨[(item.idx, ⟨some fref.idx, "unique-date-aircraft"⟩)], [(fref.idx, item.idx)]⟩
    | wf, wl => cascadeHeuristics w wf wl

/-- Processing of one `(date, norm_ac)` group (app.py lines 692-858): if
the group has no flights every landing is unmatched (this happens before
the manual-override loop); otherwise valid overrides are applied first
and the cascade runs on the working pools. -/
def processGroup (ao : Nat → Option Nat) (w : Int) (fitems : List FItem) (litems : List LItem) :
    GroupOut :=
  if fitems.length = 0 then
    ⟨litems.map fun it => (it.idx, ⟨none, "unmatched"⟩), []⟩
  else
    let ovEntries : List (Nat × LinkInfo) :=
      litems.filterMap fun it => (ao it.idx).map fun f => (it.idx, ⟨some f, "manual"⟩)
    let ovAssigns : List (Nat × Nat) :=
      litems.filterMap fun it => (ao it.idx).map fun f => (f, it.idx)
    let d := cascade w (workingF ao litems fitems) (workingL ao litems)
    ⟨ovEntries ++ d.entries, ovAssigns ++ d.assigns⟩

/-- The matching engine over an already-applied override check. -/
def recomputeCore (flights : List Flight) (landings : List Landing) (ao : Nat → Option Nat)
    (w : Int) : LinkState :=
  let per := (groupKeysOf landings).map fun k =>
    processGroup ao w (groupFlightItems flights k) (groupLandingItems landings k)
  ⟨(per.map GroupOut.entries).flatten, (per.map GroupOut.assigns).flatten⟩

/-- `recompute_links` (app.py lines 639-861) as a pure function of the
state snapshot it reads: flight list, landing list, manual overrides and
the configured cluster window. -/
def recompute_links (flights : List Flight) (landings : List Landing)
    (overrides : Nat → Option Int) (w : Int) : LinkState :=
  recomputeCore flights landings (appliedOv flights overrides) w

/-! ## AppState (app.py lines 69-126) -/

/-- The shared state fields the engine and the configuration setter
touch.  File watchers, socket handles and caches are out of scope. -/
structure AppState where
  cached_flights : List Flight
  cached_landings : List Landing
  manual_overrides : Nat → Option Int
  cluster_minutes : Int
  landing_links : List (Nat × LinkInfo)
  flight_to_landing_indices : List (Nat × Nat)

/-- `AppState.set_cluster_minutes` (app.py lines 117-122): raises
`ValueError` unless `1 <= minutes <= 60`; the raise happens before the
stored value is touched. -/
def AppState.set_cluster_minutes (s : AppState) (minutes : Int) : Except String AppState :=
  if 1 ≤ minutes ∧ minutes ≤ 60 then Except.ok { s with cluster_minutes := minutes }
  else Except.error ("Cluster minutes must be between 1 and 60")

/-- The stored cluster window after a set attempt: the new value on
success, the previous value when the setter raised. -/
def clusterAfterSet (s : AppState) (minutes : Int) : Int :=
  match s.set_cluster_minutes minutes with
  | Except.ok s2 => s2.cluster_minutes
  | Except.error _ => s.cluster_minutes

/-- One run of the engine against the state: reads the record stores,
override store and config, replaces the two link maps. -/
def recompute_state (s : AppState) : AppState :=
  let st := recompute_links s.cached_flights s.cached_landings s.manual_overrides s.cluster_minutes
  { s with landing_links := st.links, flight_to_landing_indices := st.assigns }

/-! ## Concrete sample data for scenario theorems and witnesses -/

/-- A Cessna-172 flight on 2024-03-10 declaring the given landing count. -/
def sampleFlight (landings : Int) : Flight :=
  ⟨"2024-03-10", "KSEA", "KPDX", landings, "N172SP", "Cessna 172", "C172"⟩

/-- A Cessna-172 landing on 2024-03-10 at the given canonical timestamp. -/
def sampleLanding (t : String) : Landing := ⟨t, "2024-03-10", "Cessna 172", "C172"⟩

/-- A Cessna-172 landing on 2024-03-11 (a day with no flights in the
sample data). -/
def sampleLandingDay2 (t : String) : Landing := ⟨t, "2024-03-11", "Cessna 172", "C172"⟩

/-- An override mapping sending exactly landing `li` to flight `fi`. -/
def singleOverride (li : Nat) (fi : Int) : Nat → Option Int :=
  fun k => if k = li then some fi else none

/-- An empty sample application state. -/
def sampleState : AppState :=
  ⟨[], [], fun _ => none, 10, [], []⟩

/-! ## C5: cluster-window validation -/

/-- C5: setting the cluster window to an integer outside [1,60] is
rejected with a validation failure surfaced to the caller of the setter
and the stored value is retained; setting it to an integer inside [1,60]
succeeds and stores that value. -/
theorem cluster_window_validation (s : AppState) (m : Int) :
    (¬ (1 ≤ m ∧ m ≤ 60) →
      s.set_cluster_minutes m = Except.error ("Cluster minutes must be between 1 and 60")
        ∧ clusterAfterSet s m = s.cluster_minutes)
    ∧ (1 ≤ m ∧ m ≤ 60 →
      s.set_cluster_minutes m = Except.ok { s with cluster_minutes := m }
        ∧ clusterAfterSet s m = m) := by
  constructor
  · intro h
    constructor
    · simp [AppState.set_cluster_minutes, h]
    · simp [clusterAfterSet, AppState.set_cluster_minutes, h]
  · intro h
    constructor
    · simp [AppState.set_cluster_minutes, h]
    · simp [clusterAfterSet, AppState.set_cluster_minutes, h]

/-- Witness for C5 at the concrete out-of-range value 0 and in-range
value 15. -/
theorem cluster_window_validation_witness :
    (¬ (1 ≤ (0 : Int) ∧ (0 : Int) ≤ 60)
      ∧ clusterAfterSet sampleState 0 = sampleState.cluster_minutes)
    ∧ ((1 ≤ (15 : Int) ∧ (15 : Int) ≤ 60)
      ∧ clusterAfterSet sampleState 15 = 15) :=
  ⟨⟨by decide, ((cluster_window_validation sampleState 0).1 (by decide)).2⟩,
   ⟨by decide, ((cluster_window_validation sampleState 15).2 (by decide)).2⟩⟩

/-! ## C8: determinism / idempotence of the engine -/

/-- C8: running `recompute_links` twice over the same flight list,
landing list, override mapping and cluster window produces identical
landing-links and flight-to-landing maps: the engine is a pure function
of the state snapshot, so a second run on the unchanged state reproduces
the link maps exactly. -/
theorem recompute_links_idempotent (s : AppState) :
    recompute_state (recompute_state s) = recompute_state s := rfl

/-! ## C6: out-of-range overrides are silently ignored -/

/-- C6: a manual-override entry whose flight index is out of range for
the current flight list is silently ignored: the bounds check yields no
applied override for that landing, and the run is identical to a run in
which that override entry is absent, so the landing stays in its working
pool and is handled by the heuristic cascade like any non-overridden
landing. -/
theorem out_of_range_override_ignored (flights : List Flight) (landings : List Landing)
    (overrides : Nat → Option Int) (w : Int) (li : Nat) (f : Int)
    (hov : overrides li = some f) (hbad : ¬ (0 ≤ f ∧ f < (flights.length : Int))) :
    appliedOv flights overrides li = none
    ∧ recompute_links flights landings overrides w
      = recompute_links flights landings (fun k => if k = li then none else overrides k) w := by
  have hnone : appliedOv flights overrides li = none := by
    simp [appliedOv, hov, hbad]
  refine ⟨hnone, ?_⟩
  unfold recompute_links
  have h : appliedOv flights overrides
      = appliedOv flights (fun k => if k = li then none else overrides k) := by
    funext k
    by_cases hk : k = li
    · subst hk
      simpa [appliedOv] using hnone
    · simp [appliedOv, hk]
  rw [h]

/-- Witness for C6: a single landing overridden to flight index 3 of an
empty flight list; the run equals the run without the override. -/
theorem out_of_range_override_ignored_witness :
    appliedOv [] (singleOverride 0 3) 0 = none
    ∧ recompute_links [] [sampleLanding "2024-03-10 10:00:00"] (singleOverride 0 3) 10
      = recompute_links [] [sampleLanding "2024-03-10 10:00:00"]
          (fun k => if k = 0 then none else singleOverride 0 3 k) 10 :=
  out_of_range_override_ignored [] [sampleLanding "2024-03-10 10:00:00"]
    (singleOverride 0 3) 10 0 3 (by decide) (by decide)

/-! ## C9: normalize_aircraft -/

theorem listPrefixB_append_left (p q : List Char) :
    ∀ l, listPrefixB (p ++ q) l = true → listPrefixB p l = true := by
  induction p with
  | nil => intro l _; rfl
  | cons a as ih =>
    intro l h
    cases l with
    | nil => simp [listPrefixB] at h
    | cons b bs =>
      simp only [List.cons_append, listPrefixB, Bool.and_eq_true, decide_eq_true_eq] at h ⊢
      exact ⟨h.1, ih bs h.2⟩

theorem substrB_of_listPrefixB (p : List Char) :
    ∀ l, listPrefixB p l = true → substrB p l = true := by
  intro l h
  cases l with
  | nil =>
    cases p with
    | nil => rfl
    | cons a as => simp [listPrefixB] at h
  | cons c rest =>
    simp only [substrB, Bool.or_eq_true]
    exact Or.inl h

theorem substrB_of_append (p q : List Char) :
    ∀ l, substrB (p ++ q) l = true → substrB p l = true := by
  intro l
  induction l with
  | nil =>
    intro h
    cases p with
    | nil => rfl
    | cons a as => simp [substrB] at h
  | cons c rest ih =>
    intro h
    simp only [substrB, Bool.or_eq_true] at h ⊢
    cases h with
    | inl h => exact Or.inl (listPrefixB_append_left p q _ h)
    | inr h => exact Or.inr (ih h)

/-- C9: `normalize_aircraft` is a deterministic function of the raw
label agreeing everywhere with the spec's description: strip
non-alphanumerics and upper-case; a stripped token starting with C172 or
containing CESSNA172 maps to C172; one containing B738 or B737800 maps
to B738; every other label passes through as the stripped upper-cased
token (the source's extra CESSNA172SP and ZB738 tests are subsumed). -/
theorem normalize_aircraft_matches_spec (s : String) :
    normalize_aircraft s = normalizeSpec s := by
  by_cases hs : s = ""
  · subst hs; rfl
  · unfold normalize_aircraft normalizeSpec
    rw [if_neg hs]
    have hsp : ("CESSNA172SP".data) = ("CESSNA172".data) ++ ("SP".data) := by decide
    have hzb : ("ZB738".data) = 'Z' :: ("B738".data) := by decide
    have hc : ∀ t : List Char,
        (listPrefixB ("C172".data) t || substrB ("CESSNA172".data) t
          || substrB ("CESSNA172SP".data) t)
        = (listPrefixB ("C172".data) t || substrB ("CESSNA172".data) t) := by
      intro t
      cases h3 : substrB ("CESSNA172SP".data) t with
      | false => simp [h3]
      | true =>
        have h2 : substrB ("CESSNA172".data) t = true := by
          apply substrB_of_append ("CESSNA172".data) ("SP".data)
          rw [← hsp]
          exact h3
        simp [h2, h3]
    have hb : ∀ t : List Char,
        (substrB ("B738".data) t || substrB ("B737800".data) t
          || listPrefixB ("ZB738".data) t)
        = (substrB ("B738".data) t || substrB ("B737800".data) t) := by
      intro t
      cases h3 : listPrefixB ("ZB738".data) t with
      | false => simp [h3]
      | true =>
        rw [hzb] at h3
        have h2 : substrB ("B738".data) t = true := by
          cases t with
          | nil => simp [listPrefixB] at h3
          | cons c rest =>
            simp only [listPrefixB, Bool.and_eq_true, decide_eq_true_eq] at h3
            have hr := substrB_of_listPrefixB ("B738".data) rest h3.2
            simp [substrB, hr]
        simp [h2]
    simp only [hc, hb]

/-! ## C1: Scenario B -/

/-- Counterexample for C1: on the Scenario B input (two flights with the
same day and aircraft each declaring one landing; two landings three
minutes apart; window 10; no overrides) the engine links the first
landing with confidence "sequence-assumed", not "count-assigned": the
equal-counts rule fires before clustering is ever reached. -/
theorem scenarioB_first_landing_not_count_assigned :
    (recompute_links [sampleFlight 1, sampleFlight 1]
        [sampleLanding "2024-03-10 10:00:00", sampleLanding "2024-03-10 10:03:00"]
        (fun _ => none) 10).links.lookup 0 = some ⟨some 0, "sequence-assumed"⟩
    ∧ (recompute_links [sampleFlight 1, sampleFlight 1]
        [sampleLanding "2024-03-10 10:00:00", sampleLanding "2024-03-10 10:03:00"]
        (fun _ => none) 10).links.lookup 0 ≠ some ⟨some 0, "count-assigned"⟩ := by
  decide

/-- C1 (amended): on the Scenario B input the equal-counts rule fires
(working flights = working landings = 2), so the first landing in time
order is assigned to the first flight and the second to the second, each
with confidence "sequence-assumed"; the count-based heuristic never
runs. -/
theorem scenarioB_sequence_assumed :
    (recompute_links [sampleFlight 1, sampleFlight 1]
        [sampleLanding "2024-03-10 10:00:00", sampleLanding "2024-03-10 10:03:00"]
        (fun _ => none) 10).links.lookup 0 = some ⟨some 0, "sequence-assumed"⟩
    ∧ (recompute_links [sampleFlight 1, sampleFlight 1]
        [sampleLanding "2024-03-10 10:00:00", sampleLanding "2024-03-10 10:03:00"]
        (fun _ => none) 10).links.lookup 1 = some ⟨some 1, "sequence-assumed"⟩
    ∧ flightLandings (recompute_links [sampleFlight 1, sampleFlight 1]
        [sampleLanding "2024-03-10 10:00:00", sampleLanding "2024-03-10 10:03:00"]
        (fun _ => none) 10) 0 = [0]
    ∧ flightLandings (recompute_links [sampleFlight 1, sampleFlight 1]
        [sampleLanding "2024-03-10 10:00:00", sampleLanding "2024-03-10 10:03:00"]
        (fun _ => none) 10) 1 = [1] := by
  decide

/-! ## C2 / C10 counterexamples: overrides in a group without flights -/

/-- Counterexample for C2: a landing whose override passes the bounds
check against the flight list, but whose own (date, aircraft) group
contains no flights, is marked "unmatched" — the group-empty early exit
runs before the manual-override loop, so the override is not applied and
the landing never reaches the flight's landing list. -/
theorem valid_override_empty_group_unmatched :
    appliedOv [sampleFlight 1] (singleOverride 0 0) 0 = some 0
    ∧ (recompute_links [sampleFlight 1] [sampleLandingDay2 "2024-03-11 09:00:00"]
        (singleOverride 0 0) 10).links.lookup 0 = some ⟨none, "unmatched"⟩
    ∧ flightLandings (recompute_links [sampleFlight 1] [sampleLandingDay2 "2024-03-11 09:00:00"]
        (singleOverride 0 0) 10) 0 = [] := by
  decide

/-- Counterexample for C10: an override targeting flight index 0, valid
against the full flight list but whose flight declares zero landings.
Because zero-landing flights join no group, the landing's group has no
flights, the group-empty early exit fires first, and the override is not
applied: the landing is "unmatched" and the flight receives nothing. -/
theorem zero_landing_flight_override_not_applied :
    ((0 : Int) ≤ 0 ∧ (0 : Int) < 1)
    ∧ (sampleFlight 0).landings = 0
    ∧ (recompute_links [sampleFlight 0] [sampleLanding "2024-03-10 10:00:00"]
        (singleOverride 0 0) 10).links.lookup 0 = some ⟨none, "unmatched"⟩
    ∧ flightLandings (recompute_links [sampleFlight 0] [sampleLanding "2024-03-10 10:00:00"]
        (singleOverride 0 0) 10) 0 = [] := by
  decide

/-! ## Structural lemmas: sorting, enumeration, grouping -/

theorem insertByTime_perm (x : LItem) : ∀ l : List LItem, (insertByTime x l).Perm (x :: l) := by
  intro l
  induction l with
  | nil => exact List.Perm.refl _
  | cons y ys ih =>
    simp only [insertByTime]
    split
    · exact List.Perm.refl _
    · exact (List.Perm.cons y ih).trans (List.Perm.swap x y ys)

theorem sortByTime_perm : ∀ l : List LItem, (sortByTime l).Perm l := by
  intro l
  induction l with
  | nil => exact List.Perm.refl _
  | cons x xs ih => exact (insertByTime_perm x (sortByTime xs)).trans (ih.cons x)

theorem landingItems_map_idx (landings : List Landing) :
    (landingItems landings).map LItem.idx = List.range landings.length := by
  unfold landingItems
  rw [List.map_map]
  exact List.enum_map_fst landings

theorem mem_landingItems_iff (landings : List Landing) (it : LItem) :
    it ∈ landingItems landings ↔ landings.get? it.idx = some it.landing := by
  unfold landingItems
  constructor
  · intro h
    obtain ⟨p, hp, he⟩ := List.mem_map.mp h
    cases he
    exact List.mem_enum_iff_get?.mp hp
  · intro h
    exact List.mem_map.mpr ⟨(it.idx, it.landing), List.mem_enum_iff_get?.mpr h, rfl⟩

theorem mem_flightItems_iff (flights : List Flight) (it : FItem) :
    it ∈ flightItems flights ↔
      (flights.get? it.idx = some it.flight ∧ 1 ≤ it.flight.landings) := by
  unfold flightItems
  constructor
  · intro h
    obtain ⟨p, hp, he⟩ := List.mem_map.mp h
    obtain ⟨hpe, hpl⟩ := List.mem_filter.mp hp
    cases he
    exact ⟨List.mem_enum_iff_get?.mp hpe, by simpa using hpl⟩
  · intro h
    refine List.mem_map.mpr ⟨(it.idx, it.flight), ?_, rfl⟩
    exact List.mem_filter.mpr ⟨List.mem_enum_iff_get?.mpr h.1, by simpa using h.2⟩

theorem mem_groupFlightItems (flights : List Flight) (k : String × String) (it : FItem) :
    it ∈ groupFlightItems flights k ↔
      (flights.get? it.idx = some it.flight ∧ 1 ≤ it.flight.landings ∧ fkey it.flight = k) := by
  unfold groupFlightItems
  rw [List.mem_filter, mem_flightItems_iff]
  simp [and_assoc]

theorem groupFlightItems_idx_lt (flights : List Flight) (k : String × String) :
    ∀ it ∈ groupFlightItems flights k, it.idx < flights.length := by
  intro it h
  obtain ⟨hg, -, -⟩ := (mem_groupFlightItems flights k it).mp h
  exact (List.get?_eq_some.mp hg).1

theorem mem_groupLandingItems (landings : List Landing) (k : String × String) (it : LItem) :
    it ∈ groupLandingItems landings k ↔
      (landings.get? it.idx = some it.landing ∧ lkey it.landing = k) := by
  unfold groupLandingItems groupLandingItemsRaw
  rw [(sortByTime_perm _).mem_iff, List.mem_filter, mem_landingItems_iff]
  simp

theorem groupLandingItems_idx_nodup (landings : List Landing) (k : String × String) :
    ((groupLandingItems landings k).map LItem.idx).Nodup := by
  have h1 : ((landingItems landings).map LItem.idx).Nodup := by
    rw [landingItems_map_idx]
    exact List.nodup_range _
  have h2 : ((groupLandingItemsRaw landings k).map LItem.idx).Nodup :=
    List.Nodup.sublist (List.Sublist.map LItem.idx (List.filter_sublist _)) h1
  exact (((sortByTime_perm _).map LItem.idx).symm).nodup h2

theorem mem_dedupFirst (k : String × String) :
    ∀ l : List (String × String), k ∈ dedupFirst l ↔ k ∈ l := by
  intro l
  induction l with
  | nil => simp [dedupFirst]
  | cons a rest ih =>
    simp only [dedupFirst, List.mem_cons]
    constructor
    · intro h
      cases h with
      | inl h => exact Or.inl h
      | inr h => exact Or.inr (ih.mp (List.mem_filter.mp h).1)
    · intro h
      cases h with
      | inl h => exact Or.inl h
      | inr h =>
        by_cases hk : k = a
        · exact Or.inl hk
        · exact Or.inr (List.mem_filter.mpr ⟨ih.mpr h, by simpa using hk⟩)

theorem dedupFirst_nodup : ∀ l : List (String × String), (dedupFirst l).Nodup := by
  intro l
  induction l with
  | nil => exact List.nodup_nil
  | cons a rest ih =>
    refine List.Nodup.cons ?_ (List.Nodup.filter _ ih)
    intro hmem
    have := (List.mem_filter.mp hmem).2
    simp at this

theorem mem_groupKeysOf (landings : List Landing) (k : String × String) :
    k ∈ groupKeysOf landings ↔ k ∈ landings.map lkey := by
  unfold groupKeysOf
  exact mem_dedupFirst k _

theorem groupKeysOf_nodup (landings : List Landing) : (groupKeysOf landings).Nodup :=
  dedupFirst_nodup _

theorem appliedOv_lt (flights : List Flight) (overrides : Nat → Option Int) (li : Nat) (f : Nat)
    (h : appliedOv flights overrides li = some f) : f < flights.length := by
  unfold appliedOv at h
  cases hov : overrides li with
  | none => rw [hov] at h; exact absurd h (by simp)
  | some g =>
    rw [hov] at h
    dsimp only at h
    by_cases hb : 0 ≤ g ∧ g < (flights.length : Int)
    · rw [if_pos hb] at h
      cases h
      omega
    · rw [if_neg hb] at h
      exact absurd h (by simp)

/-! ## Generic list helper lemmas -/

theorem map_filter_comp {α β : Type} (f : α → β) (p : β → Bool) :
    ∀ l : List α, (l.filter fun a => p (f a)).map f = (l.map f).filter p := by
  intro l
  induction l with
  | nil => rfl
  | cons a rest ih =>
    simp only [List.filter_cons, List.map_cons]
    cases hp : p (f a)
    · simpa [hp] using ih
    · simp [hp, ih]

theorem filterMap_map_const {α β γ : Type} (g : α → Option γ) (h : α → β) :
    ∀ l : List α, (l.filterMap fun a => (g a).map fun _ => h a)
      = (l.filter fun a => (g a).isSome).map h := by
  intro l
  induction l with
  | nil => rfl
  | cons a rest ih =>
    cases hg : g a
    · simp [List.filterMap_cons, List.filter_cons, hg, ih]
    · simp [List.filterMap_cons, List.filter_cons, hg, ih]

theorem perm_of_sub_filter (s t : List Nat) (hs : s.Nodup) (ht : t.Nodup)
    (hsub : ∀ x ∈ s, x ∈ t) :
    (s ++ t.filter fun x => ! s.contains x).Perm t := by
  have hnd : (s ++ t.filter fun x => ! s.contains x).Nodup := by
    refine List.Nodup.append hs (List.Nodup.filter _ ht) ?_
    intro x hxs hxf
    have := (List.mem_filter.mp hxf).2
    simp only [Bool.not_eq_true'] at this
    rw [List.contains] at this
    have hmem : x ∈ s := hxs
    rw [← List.elem_iff] at hmem
    rw [this] at hmem
    exact absurd hmem (by simp)
  rw [List.perm_ext_iff_of_nodup hnd ht]
  intro a
  constructor
  · intro h
    cases List.mem_append.mp h with
    | inl h => exact hsub a h
    | inr h => exact (List.mem_filter.mp h).1
  · intro h
    by_cases ha : a ∈ s
    · exact List.mem_append.mpr (Or.inl ha)
    · refine List.mem_append.mpr (Or.inr (List.mem_filter.mpr ⟨h, ?_⟩))
      simp only [Bool.not_eq_true', List.contains]
      rw [Bool.eq_false_iff]
      intro he
      exact ha (List.elem_iff.mp he)

/-! ## Clustering lemmas -/

theorem clusterGo_flatten (w : Int) :
    ∀ (rest : List LItem) (d : Option Int) (cur : List LItem) (acc : List (List LItem)),
      (clusterGo w d cur acc rest).flatten = acc.flatten ++ cur ++ rest := by
  intro rest
  induction rest with
  | nil =>
    intro d cur acc
    simp [clusterGo, List.flatten_append]
  | cons it rest ih =>
    intro d cur acc
    simp only [clusterGo]
    split
    · rw [ih]
      simp
    · rw [ih]
      simp [List.flatten_append]

theorem clusterize_flatten (w : Int) : ∀ l : List LItem, (clusterize w l).flatten = l := by
  intro l
  cases l with
  | nil => rfl
  | cons it rest => simp [clusterize, clusterGo_flatten]

theorem clusterGo_extends (w : Int) :
    ∀ (rest : List LItem) (d : Option Int) (cur : List LItem) (acc : List (List LItem)),
      ∃ s post, clusterGo w d cur acc rest = acc ++ (cur ++ s) :: post := by
  intro rest
  induction rest with
  | nil =>
    intro d cur acc
    exact ⟨[], [], by simp [clusterGo]⟩
  | cons it rest ih =>
    intro d cur acc
    simp only [clusterGo]
    split
    · obtain ⟨s, post, h⟩ := ih _ (cur ++ [it]) acc
      exact ⟨it :: s, post, by rw [h]; simp⟩
    · obtain ⟨s, post, h⟩ := ih _ [it] (acc ++ [cur])
      refine ⟨[], (it :: s) :: post, ?_⟩
      rw [h]
      simp

theorem clusterGo_step (w : Int) (cur : List LItem) (acc : List (List LItem)) (q x : LItem)
    (rest : List LItem) :
    clusterGo w (parse_dt_safe q.landing.time) cur acc (x :: rest)
      = if joinCond w q x then
          clusterGo w (parse_dt_safe x.landing.time) (cur ++ [x]) acc rest
        else clusterGo w (parse_dt_safe x.landing.time) [x] (acc ++ [cur]) rest := by
  cases hq : parse_dt_safe q.landing.time with
  | none =>
    cases hx : parse_dt_safe x.landing.time with
    | none => simp [clusterGo, joinCond, hq, hx]
    | some b => simp [clusterGo, joinCond, hq, hx]
  | some a =>
    cases hx : parse_dt_safe x.landing.time with
    | none => simp [clusterGo, joinCond, hq, hx]
    | some b => simp [clusterGo, joinCond, hq, hx]

theorem clusterGo_adjacent_same (w : Int) :
    ∀ (xs : List LItem) (a b : LItem) (ys : List LItem) (q : LItem) (cur : List LItem)
      (acc : List (List LItem)),
      joinCond w a b = true →
      ∃ pre m1 m2 post,
        clusterGo w (parse_dt_safe q.landing.time) (cur ++ [q]) acc (xs ++ a :: b :: ys)
          = pre ++ (m1 ++ a :: b :: m2) :: post := by
  intro xs
  induction xs with
  | nil =>
    intro a b ys q cur acc hj
    rw [List.nil_append, clusterGo_step]
    split
    · rw [clusterGo_step, if_pos hj]
      obtain ⟨s, post, h⟩ := clusterGo_extends w ys _ (((cur ++ [q]) ++ [a]) ++ [b]) acc
      refine ⟨acc, cur ++ [q], s, post, ?_⟩
      rw [h]
      simp
    · rw [clusterGo_step, if_pos hj]
      obtain ⟨s, post, h⟩ := clusterGo_extends w ys _ ([a] ++ [b]) (acc ++ [cur ++ [q]])
      refine ⟨acc ++ [cur ++ [q]], [], s, post, ?_⟩
      rw [h]
      simp
  | cons x xs ih =>
    intro a b ys q cur acc hj
    rw [List.cons_append, clusterGo_step]
    split
    · exact ih a b ys x (cur ++ [q]) acc hj
    · exact ih a b ys x [] (acc ++ [cur ++ [q]]) hj

theorem clusterGo_adjacent_boundary (w : Int) :
    ∀ (xs : List LItem) (a b : LItem) (ys : List LItem) (q : LItem) (cur : List LItem)
      (acc : List (List LItem)),
      joinCond w a b = false →
      ∃ pre m1 m2 post,
        clusterGo w (parse_dt_safe q.landing.time) (cur ++ [q]) acc (xs ++ a :: b :: ys)
          = pre ++ (m1 ++ [a]) :: (b :: m2) :: post := by
  intro xs
  induction xs with
  | nil =>
    intro a b ys q cur acc hj
    rw [List.nil_append, clusterGo_step]
    split
    · rw [clusterGo_step, if_neg (by simp [hj])]
      obtain ⟨s, post, h⟩ := clusterGo_extends w ys _ [b] (acc ++ [(cur ++ [q]) ++ [a]])
      refine ⟨acc, cur ++ [q], s, post, ?_⟩
      rw [h]
      simp
    · rw [clusterGo_step, if_neg (by simp [hj])]
      obtain ⟨s, post, h⟩ := clusterGo_extends w ys _ [b] ((acc ++ [cur ++ [q]]) ++ [[a]])
      refine ⟨acc ++ [cur ++ [q]], [], s, post, ?_⟩
      rw [h]
      simp
  | cons x xs ih =>
    intro a b ys q cur acc hj
    rw [List.cons_append, clusterGo_step]
    split
    · exact ih a b ys x (cur ++ [q]) acc hj
    · exact ih a b ys x [] (acc ++ [cur ++ [q]]) hj

theorem clusterize_adjacent_same (w : Int) (xs : List LItem) (a b : LItem) (ys : List LItem)
    (hj : joinCond w a b = true) :
    ∃ pre m1 m2 post, clusterize w (xs ++ a :: b :: ys) = pre ++ (m1 ++ a :: b :: m2) :: post := by
  cases xs with
  | nil =>
    simp only [clusterize, List.nil_append]
    rw [clusterGo_step, if_pos hj]
    obtain ⟨s, post, h⟩ := clusterGo_extends w ys _ ([a] ++ [b]) []
    refine ⟨[], [], s, post, ?_⟩
    rw [h]
    simp
  | cons x xs =>
    simp only [clusterize, List.cons_append]
    have h := clusterGo_adjacent_same w xs a b ys x [] [] hj
    simpa using h

theorem clusterize_adjacent_boundary (w : Int) (xs : List LItem) (a b : LItem) (ys : List LItem)
    (hj : joinCond w a b = false) :
    ∃ pre m1 m2 post,
      clusterize w (xs ++ a :: b :: ys) = pre ++ (m1 ++ [a]) :: (b :: m2) :: post := by
  cases xs with
  | nil =>
    simp only [clusterize, List.nil_append]
    rw [clusterGo_step, if_neg (by simp [hj])]
    obtain ⟨s, post, h⟩ := clusterGo_extends w ys _ [b] ([] ++ [[a]])
    refine ⟨[], [], s, post, ?_⟩
    rw [h]
    simp
  | cons x xs =>
    simp only [clusterize, List.cons_append]
    have h := clusterGo_adjacent_boundary w xs a b ys x [] [] hj
    simpa using h

/-- C3: in the clustering step, two consecutive time-sorted landings
whose parseable time delta is at most the configured window — in
particular exactly equal to it — end up adjacent inside one cluster; a
delta strictly greater than the window makes the second landing open a
new cluster; an unparseable timestamp on either neighbour (no computable
delta) likewise forces a cluster boundary; and no record is dropped or
rejected: the clusters always flatten back to the input list. -/
theorem clustering_window_boundary (w : Int) (xs ys : List LItem) (a b : LItem) :
    (∀ ta tb, parse_dt_safe a.landing.time = some ta → parse_dt_safe b.landing.time = some tb →
        (((tb - ta).natAbs : Int) ≤ 60 * w →
          ∃ pre m1 m2 post,
            clusterize w (xs ++ a :: b :: ys) = pre ++ (m1 ++ a :: b :: m2) :: post)
        ∧ (60 * w < ((tb - ta).natAbs : Int) →
          ∃ pre m1 m2 post,
            clusterize w (xs ++ a :: b :: ys) = pre ++ (m1 ++ [a]) :: (b :: m2) :: post))
    ∧ ((parse_dt_safe a.landing.time = none ∨ parse_dt_safe b.landing.time = none) →
        ∃ pre m1 m2 post,
          clusterize w (xs ++ a :: b :: ys) = pre ++ (m1 ++ [a]) :: (b :: m2) :: post)
    ∧ (clusterize w (xs ++ a :: b :: ys)).flatten = xs ++ a :: b :: ys := by
  refine ⟨?_, ?_, clusterize_flatten w _⟩
  · intro ta tb ha hb
    constructor
    · intro hle
      apply clusterize_adjacent_same
      unfold joinCond
      rw [ha, hb]
      simpa using hle
    · intro hgt
      apply clusterize_adjacent_boundary
      unfold joinCond
      rw [ha, hb]
      simpa using hgt
  · intro h
    apply clusterize_adjacent_boundary
    unfold joinCond
    cases ha : parse_dt_safe a.landing.time with
    | none =>
      cases hb : parse_dt_safe b.landing.time with
      | none => rfl
      | some tb => rfl
    | some ta =>
      cases hb : parse_dt_safe b.landing.time with
      | none => rfl
      | some tb =>
        rw [ha] at h
        rw [hb] at h
        cases h with
        | inl h => exact absurd h (by simp)
        | inr h => exact absurd h (by simp)

/-- Witness for C3 at window 10: landings exactly 600 seconds apart stay
in one cluster, landings 660 seconds apart split, and an unparseable
timestamp splits. -/
theorem clustering_window_boundary_witness :
    (∃ pre m1 m2 post,
      clusterize 10 [(⟨0, sampleLanding "2024-03-10 10:00:00"⟩ : LItem),
          ⟨1, sampleLanding "2024-03-10 10:10:00"⟩]
        = pre ++ (m1 ++ (⟨0, sampleLanding "2024-03-10 10:00:00"⟩ : LItem)
            :: (⟨1, sampleLanding "2024-03-10 10:10:00"⟩ : LItem) :: m2) :: post)
    ∧ (∃ pre m1 m2 post,
      clusterize 10 [(⟨0, sampleLanding "2024-03-10 10:00:00"⟩ : LItem),
          ⟨1, sampleLanding "2024-03-10 10:11:00"⟩]
        = pre ++ (m1 ++ [(⟨0, sampleLanding "2024-03-10 10:00:00"⟩ : LItem)])
            :: ((⟨1, sampleLanding "2024-03-10 10:11:00"⟩ : LItem) :: m2) :: post)
    ∧ (∃ pre m1 m2 post,
      clusterize 10 [(⟨0, sampleLanding "2024-03-10 10:00:00"⟩ : LItem),
          ⟨1, sampleLanding "garbage"⟩]
        = pre ++ (m1 ++ [(⟨0, sampleLanding "2024-03-10 10:00:00"⟩ : LItem)])
            :: ((⟨1, sampleLanding "garbage"⟩ : LItem) :: m2) :: post) := by
  refine ⟨?_, ?_, ?_⟩
  · have h := ((clustering_window_boundary 10 [] []
        ⟨0, sampleLanding "2024-03-10 10:00:00"⟩ ⟨1, sampleLanding "2024-03-10 10:10:00"⟩).1
        63845661600 63845662200 (by decide) (by decide)).1 (by decide)
    simpa using h
  · have h := ((clustering_window_boundary 10 [] []
        ⟨0, sampleLanding "2024-03-10 10:00:00"⟩ ⟨1, sampleLanding "2024-03-10 10:11:00"⟩).1
        63845661600 63845662260 (by decide) (by decide)).2 (by decide)
    simpa using h
  · have h := (clustering_window_boundary 10 [] []
        ⟨0, sampleLanding "2024-03-10 10:00:00"⟩ ⟨1, sampleLanding "garbage"⟩).2.1
        (Or.inr (by decide))
    simpa using h

/-! ## Distribution lemmas -/

theorem flatMap_map_extract {β : Type} (g : LItem → β) (h : β → Nat)
    (hgh : (fun it : LItem => h (g it)) = LItem.idx) :
    ∀ cs' : List (List LItem),
      ((cs'.flatMap fun cl => cl.map g).map h) = cs'.flatten.map LItem.idx := by
  intro cs'
  induction cs' with
  | nil => rfl
  | cons c rest ih =>
    rw [List.flatMap_cons, List.flatten_cons, List.map_append, List.map_append, ih]
    congr 1
    rw [List.map_map]
    exact congrArg (fun f => List.map f c) hgh

theorem distClusters_fst_sublist : ∀ (fs : List FItem) (cs : List (List LItem)),
    ((distClusters fs cs).entries.map Prod.fst).Sublist (cs.flatten.map LItem.idx) := by
  intro fs
  induction fs with
  | nil => intro cs; exact List.nil_sublist _
  | cons fref fs ih =>
    intro cs
    simp only [distClusters]
    rw [List.map_append]
    rw [flatMap_map_extract
      (fun it => (it.idx, (⟨some fref.idx, "cluster-assigned"⟩ : LinkInfo))) Prod.fst rfl]
    have h2 : (cs.flatten.map LItem.idx)
        = ((cs.take (declaredOf fref.flight)).flatten.map LItem.idx)
          ++ ((cs.drop (declaredOf fref.flight)).flatten.map LItem.idx) := by
      rw [← List.map_append, ← List.flatten_append, List.take_append_drop]
    rw [h2]
    exact List.Sublist.append (List.Sublist.refl _) (ih _)

theorem distClusters_snd_eq_fst : ∀ (fs : List FItem) (cs : List (List LItem)),
    (distClusters fs cs).assigns.map Prod.snd = (distClusters fs cs).entries.map Prod.fst := by
  intro fs
  induction fs with
  | nil => intro cs; rfl
  | cons fref fs ih =>
    intro cs
    simp only [distClusters]
    rw [List.map_append, List.map_append, ih]
    congr 1
    rw [flatMap_map_extract (fun it => (fref.idx, it.idx)) Prod.snd rfl,
      flatMap_map_extract
        (fun it => (it.idx, (⟨some fref.idx, "cluster-assigned"⟩ : LinkInfo))) Prod.fst rfl]

theorem distClusters_assigns_fst_mem : ∀ (fs : List FItem) (cs : List (List LItem)),
    ∀ p ∈ (distClusters fs cs).assigns, p.1 ∈ fs.map FItem.idx := by
  intro fs
  induction fs with
  | nil => intro cs p hp; exact absurd hp (by simp [distClusters])
  | cons fref fs ih =>
    intro cs p hp
    simp only [distClusters, List.mem_append] at hp
    cases hp with
    | inl hp =>
      obtain ⟨cl, -, hpc⟩ := List.mem_flatMap.mp hp
      obtain ⟨it, -, he⟩ := List.mem_map.mp hpc
      rw [← he]
      simp
    | inr hp =>
      simp only [List.map_cons, List.mem_cons]
      exact Or.inr (ih _ p hp)

theorem distClusters_entries_flightIndex : ∀ (fs : List FItem) (cs : List (List LItem)),
    ∀ q ∈ (distClusters fs cs).entries, ∀ g, q.2.flightIndex = some g → g ∈ fs.map FItem.idx := by
  intro fs
  induction fs with
  | nil => intro cs q hq; exact absurd hq (by simp [distClusters])
  | cons fref fs ih =>
    intro cs q hq g hg
    simp only [distClusters, List.mem_append] at hq
    cases hq with
    | inl hq =>
      obtain ⟨cl, -, hqc⟩ := List.mem_flatMap.mp hq
      obtain ⟨it, -, he⟩ := List.mem_map.mp hqc
      rw [← he] at hg
      simp at hg
      simp [hg]
    | inr hq =>
      simp only [List.map_cons, List.mem_cons]
      exact Or.inr (ih _ q hq g hg)

theorem distCount_fst_append : ∀ (fs : List FItem) (ls : List LItem),
    ((distCount fs ls).1.entries.map Prod.fst) ++ ((distCount fs ls).2.map LItem.idx)
      = ls.map LItem.idx := by
  intro fs
  induction fs with
  | nil => intro ls; simp [distCount]
  | cons fref fs ih =>
    intro ls
    simp only [distCount]
    rw [List.map_append, List.append_assoc, ih]
    have h1 : ((ls.take (declaredOf fref.flight)).map fun it =>
        (it.idx, (⟨some fref.idx, "count-assigned"⟩ : LinkInfo))).map Prod.fst
        = (ls.take (declaredOf fref.flight)).map LItem.idx := by
      rw [List.map_map]
      rfl
    rw [h1, ← List.map_append, List.take_append_drop]

theorem distCount_snd_eq_fst : ∀ (fs : List FItem) (ls : List LItem),
    (distCount fs ls).1.assigns.map Prod.snd = (distCount fs ls).1.entries.map Prod.fst := by
  intro fs
  induction fs with
  | nil => intro ls; rfl
  | cons fref fs ih =>
    intro ls
    simp only [distCount]
    rw [List.map_append, List.map_append, ih]
    congr 1
    rw [List.map_map, List.map_map]
    rfl

theorem distCount_assigns_fst_mem : ∀ (fs : List FItem) (ls : List LItem),
    ∀ p ∈ (distCount fs ls).1.assigns, p.1 ∈ fs.map FItem.idx := by
  intro fs
  induction fs with
  | nil => intro ls p hp; exact absurd hp (by simp [distCount])
  | cons fref fs ih =>
    intro ls p hp
    simp only [distCount, List.mem_append] at hp
    cases hp with
    | inl hp =>
      obtain ⟨it, -, he⟩ := List.mem_map.mp hp
      rw [← he]
      simp
    | inr hp =>
      simp only [List.map_cons, List.mem_cons]
      exact Or.inr (ih _ p hp)

theorem distCount_entries_flightIndex : ∀ (fs : List FItem) (ls : List LItem),
    ∀ q ∈ (distCount fs ls).1.entries, ∀ g, q.2.flightIndex = some g → g ∈ fs.map FItem.idx := by
  intro fs
  induction fs with
  | nil => intro ls q hq; exact absurd hq (by simp [distCount])
  | cons fref fs ih =>
    intro ls q hq g hg
    simp only [distCount, List.mem_append] at hq
    cases hq with
    | inl hq =>
      obtain ⟨it, -, he⟩ := List.mem_map.mp hq
      rw [← he] at hg
      simp at hg
      simp [hg]
    | inr hq =>
      simp only [List.map_cons, List.mem_cons]
      exact Or.inr (ih _ q hq g hg)

/-! ## Cascade lemmas -/

theorem map_filter_idx (p : Nat → Bool) : ∀ l : List LItem,
    ((l.filter fun it => p it.idx).map LItem.idx) = (l.map LItem.idx).filter p := by
  intro l
  induction l with
  | nil => rfl
  | cons a rest ih =>
    simp only [List.filter_cons, List.map_cons]
    cases hp : p a.idx
    · simpa [hp] using ih
    · simp [hp, ih]

theorem sortByTime_map_idx_nodup (wl : List LItem) (hnd : (wl.map LItem.idx).Nodup) :
    ((sortByTime wl).map LItem.idx).Nodup :=
  (((sortByTime_perm wl).map LItem.idx).symm).nodup hnd

theorem cascadeHeuristics_fst_perm (w : Int) (wf : List FItem) (wl : List LItem)
    (hnd : (wl.map LItem.idx).Nodup) :
    ((cascadeHeuristics w wf wl).entries.map Prod.fst).Perm (wl.map LItem.idx) := by
  unfold cascadeHeuristics
  split
  · rename_i h
    rw [List.map_map]
    have hz : ((wl.zip wf).map
        (Prod.fst ∘ fun p => (p.1.idx, (⟨some p.2.idx, "sequence-assumed"⟩ : LinkInfo))))
        = wl.map LItem.idx := by
      have hco : (Prod.fst ∘ fun p : LItem × FItem =>
          (p.1.idx, (⟨some p.2.idx, "sequence-assumed"⟩ : LinkInfo)))
          = (LItem.idx ∘ Prod.fst) := rfl
      rw [hco, ← List.map_map, List.map_fst_zip wl wf (le_of_eq h.1.symm)]
    rw [hz]
  · dsimp only
    split
    · rename_i h2
      rw [List.map_flatMap]
      have hpt : ∀ p : List LItem × FItem,
          ((p.1.map fun it => (it.idx, (⟨some p.2.idx, "cluster-sequence"⟩ : LinkInfo))).map
            Prod.fst) = p.1.map LItem.idx := by
        intro p
        rw [List.map_map]
        rfl
      simp only [hpt]
      have hfl : (((clusterize w (sortByTime wl)).zip wf).flatMap fun p => p.1.map LItem.idx)
          = ((sortByTime wl).map LItem.idx) := by
        rw [List.flatMap_def]
        have hco : (fun p : List LItem × FItem => p.1.map LItem.idx)
            = (List.map LItem.idx ∘ Prod.fst) := rfl
        rw [hco, ← List.map_map, List.map_fst_zip _ wf (le_of_eq h2.2.1),
          ← List.map_flatten, clusterize_flatten]
      rw [hfl]
      exact (sortByTime_perm wl).map LItem.idx
    · split
      · rename_i h3
        rw [List.map_append, List.map_map]
        have hsorted : ((sortByTime wl).map LItem.idx).Nodup := sortByTime_map_idx_nodup wl hnd
        have hsubl : ((distClusters wf (clusterize w (sortByTime wl))).entries.map
            Prod.fst).Sublist ((sortByTime wl).map LItem.idx) := by
          have h := distClusters_fst_sublist wf (clusterize w (sortByTime wl))
          rwa [clusterize_flatten] at h
        have hE : ((distClusters wf (clusterize w (sortByTime wl))).entries.map Prod.fst).Nodup :=
          List.Nodup.sublist hsubl hsorted
        have hfil := map_filter_idx (fun x =>
          ! ((distClusters wf (clusterize w (sortByTime wl))).entries.map
            Prod.fst).contains x) wl
        have hsub2 : ∀ x ∈ (distClusters wf (clusterize w (sortByTime wl))).entries.map Prod.fst,
            x ∈ wl.map LItem.idx := by
          intro x hx
          exact ((sortByTime_perm wl).map LItem.idx).mem_iff.mp (hsubl.mem hx)
        have hperm := perm_of_sub_filter
          ((distClusters wf (clusterize w (sortByTime wl))).entries.map Prod.fst)
          (wl.map LItem.idx) hE hnd hsub2
        have hco2 : (Prod.fst ∘ fun it : LItem =>
            (it.idx, (⟨none, "ambiguous"⟩ : LinkInfo))) = LItem.idx := rfl
        rw [hco2, hfil]
        exact hperm
      · split
        · rename_i h4
          rw [List.map_append, List.map_map]
          have hco : ((distCount wf wl).2.map
              (Prod.fst ∘ fun it => (it.idx, (⟨none, "ambiguous"⟩ : LinkInfo))))
              = (distCount wf wl).2.map LItem.idx := rfl
          rw [hco, distCount_fst_append]
        · rw [List.map_map]
          exact List.Perm.refl _

theorem cascade_fst_perm (w : Int) (wf : List FItem) (wl : List LItem)
    (hnd : (wl.map LItem.idx).Nodup) :
    ((cascade w wf wl).entries.map Prod.fst).Perm (wl.map LItem.idx) := by
  unfold cascade
  split
  · rw [List.map_map]
    exact List.Perm.refl _
  · split <;>
      first
      | exact List.Perm.refl _
      | exact cascadeHeuristics_fst_perm w _ _ hnd

theorem cascadeHeuristics_snd_sub (w : Int) (wf : List FItem) (wl : List LItem) :
    ((cascadeHeuristics w wf wl).assigns.map Prod.snd).Sublist
      ((cascadeHeuristics w wf wl).entries.map Prod.fst) := by
  unfold cascadeHeuristics
  split
  · rw [List.map_map, List.map_map]
    exact List.Sublist.refl _
  · dsimp only
    split
    · rw [List.map_flatMap, List.map_flatMap]
      have hpt : ∀ p : List LItem × FItem,
          ((p.1.map fun it => (p.2.idx, it.idx)).map Prod.snd)
          = ((p.1.map fun it =>
              (it.idx, (⟨some p.2.idx, "cluster-sequence"⟩ : LinkInfo))).map Prod.fst) := by
        intro p
        rw [List.map_map, List.map_map]
        rfl
      simp only [hpt]
      exact List.Sublist.refl _
    · split
      · rw [List.map_append, distClusters_snd_eq_fst]
        exact List.sublist_append_left _ _
      · split
        · rw [List.map_append, distCount_snd_eq_fst]
          exact List.sublist_append_left _ _
        · exact List.nil_sublist _

theorem cascade_snd_sub (w : Int) (wf : List FItem) (wl : List LItem) :
    ((cascade w wf wl).assigns.map Prod.snd).Sublist
      ((cascade w wf wl).entries.map Prod.fst) := by
  unfold cascade
  split
  · exact List.nil_sublist _
  · split <;>
      first
      | exact List.Sublist.refl _
      | exact cascadeHeuristics_snd_sub w _ _

theorem cascadeHeuristics_assigns_fst_mem (w : Int) (wf : List FItem) (wl : List LItem) :
    ∀ p ∈ (cascadeHeuristics w wf wl).assigns, p.1 ∈ wf.map FItem.idx := by
  unfold cascadeHeuristics
  split
  · intro p hp
    obtain ⟨q, hq, he⟩ := List.mem_map.mp hp
    obtain ⟨a, b⟩ := q
    rw [← he]
    exact List.mem_map.mpr ⟨b, (List.of_mem_zip hq).2, rfl⟩
  · dsimp only
    split
    · intro p hp
      obtain ⟨q, hq, hin⟩ := List.mem_flatMap.mp hp
      obtain ⟨c, fref⟩ := q
      obtain ⟨it, hit, he⟩ := List.mem_map.mp hin
      rw [← he]
      exact List.mem_map.mpr ⟨fref, (List.of_mem_zip hq).2, rfl⟩
    · split
      · intro p hp
        exact distClusters_assigns_fst_mem wf _ p hp
      · split
        · intro p hp
          exact distCount_assigns_fst_mem wf wl p hp
        · intro p hp
          exact absurd hp (by simp)

theorem cascade_assigns_fst_mem (w : Int) (wf : List FItem) (wl : List LItem) :
    ∀ p ∈ (cascade w wf wl).assigns, p.1 ∈ wf.map FItem.idx := by
  unfold cascade
  split
  · intro p hp
    exact absurd hp (by simp)
  · split
    · intro p hp
      rw [List.mem_singleton] at hp
      rw [hp]
      simp
    all_goals exact cascadeHeuristics_assigns_fst_mem w _ _

theorem cascadeHeuristics_flightIndex_mem (w : Int) (wf : List FItem) (wl : List LItem) :
    ∀ q ∈ (cascadeHeuristics w wf wl).entries, ∀ g, q.2.flightIndex = some g →
      g ∈ wf.map FItem.idx := by
  unfold cascadeHeuristics
  split
  · intro q hq g hg
    obtain ⟨p, hp, he⟩ := List.mem_map.mp hq
    obtain ⟨a, b⟩ := p
    rw [← he] at hg
    simp at hg
    subst hg
    exact List.mem_map.mpr ⟨b, (List.of_mem_zip hp).2, rfl⟩
  · dsimp only
    split
    · intro q hq g hg
      obtain ⟨p, hp, hin⟩ := List.mem_flatMap.mp hq
      obtain ⟨c, fref⟩ := p
      obtain ⟨it, hit, he⟩ := List.mem_map.mp hin
      rw [← he] at hg
      simp at hg
      subst hg
      exact List.mem_map.mpr ⟨fref, (List.of_mem_zip hp).2, rfl⟩
    · split
      · intro q hq g hg
        rw [List.mem_append] at hq
        cases hq with
        | inl hq => exact distClusters_entries_flightIndex wf _ q hq g hg
        | inr hq =>
          obtain ⟨it, -, he⟩ := List.mem_map.mp hq
          rw [← he] at hg
          exact absurd hg (by simp)
      · split
        · intro q hq g hg
          rw [List.mem_append] at hq
          cases hq with
          | inl hq => exact distCount_entries_flightIndex wf wl q hq g hg
          | inr hq =>
            obtain ⟨it, -, he⟩ := List.mem_map.mp hq
            rw [← he] at hg
            exact absurd hg (by simp)
        · intro q hq g hg
          obtain ⟨it, -, he⟩ := List.mem_map.mp hq
          rw [← he] at hg
          exact absurd hg (by simp)

theorem cascade_flightIndex_mem (w : Int) (wf : List FItem) (wl : List LItem) :
    ∀ q ∈ (cascade w wf wl).entries, ∀ g, q.2.flightIndex = some g → g ∈ wf.map FItem.idx := by
  unfold cascade
  split
  · intro q hq g hg
    obtain ⟨it, -, he⟩ := List.mem_map.mp hq
    rw [← he] at hg
    exact absurd hg (by simp)
  · split
    · intro q hq g hg
      rw [List.mem_singleton] at hq
      rw [hq] at hg
      simp at hg
      subst hg
      simp
    all_goals exact cascadeHeuristics_flightIndex_mem w _ _

/-! ## Per-group lemmas -/

theorem ovEntries_fst (ao : Nat → Option Nat) (litems : List LItem) :
    ((litems.filterMap fun it => (ao it.idx).map fun f =>
      (it.idx, (⟨some f, "manual"⟩ : LinkInfo))).map Prod.fst)
    = (litems.filter fun it => (ao it.idx).isSome).map LItem.idx := by
  rw [List.map_filterMap]
  have h : ∀ it : LItem,
      ((ao it.idx).map fun f => (it.idx, (⟨some f, "manual"⟩ : LinkInfo))).map Prod.fst
      = (ao it.idx).map fun _ => it.idx := by
    intro it
    cases ao it.idx <;> rfl
  simp only [h]
  exact filterMap_map_const (fun it => ao it.idx) LItem.idx litems

theorem ovAssigns_snd (ao : Nat → Option Nat) (litems : List LItem) :
    ((litems.filterMap fun it => (ao it.idx).map fun f => (f, it.idx)).map Prod.snd)
    = (litems.filter fun it => (ao it.idx).isSome).map LItem.idx := by
  rw [List.map_filterMap]
  have h : ∀ it : LItem,
      ((ao it.idx).map fun f => (f, it.idx)).map Prod.snd
      = (ao it.idx).map fun _ => it.idx := by
    intro it
    cases ao it.idx <;> rfl
  simp only [h]
  exact filterMap_map_const (fun it => ao it.idx) LItem.idx litems

theorem workingL_idx_nodup (ao : Nat → Option Nat) (litems : List LItem)
    (hnd : (litems.map LItem.idx).Nodup) :
    ((workingL ao litems).map LItem.idx).Nodup :=
  List.Nodup.sublist (List.Sublist.map _ (List.filter_sublist _)) hnd

theorem filter_isSome_isNone_perm (ao : Nat → Option Nat) (litems : List LItem) :
    ((litems.filter fun it => (ao it.idx).isSome).map LItem.idx
      ++ (workingL ao litems).map LItem.idx).Perm (litems.map LItem.idx) := by
  unfold workingL
  rw [← List.map_append]
  refine List.Perm.map LItem.idx ?_
  have h := List.filter_append_perm (fun it => (ao it.idx).isSome) litems
  have hneg : (fun it : LItem => ! (ao it.idx).isSome)
      = (fun it : LItem => (ao it.idx).isNone) := by
    funext it
    cases ao it.idx <;> rfl
  rwa [hneg] at h

theorem processGroup_fst_perm (ao : Nat → Option Nat) (w : Int) (fitems : List FItem)
    (litems : List LItem) (hnd : (litems.map LItem.idx).Nodup) :
    ((processGroup ao w fitems litems).entries.map Prod.fst).Perm (litems.map LItem.idx) := by
  unfold processGroup
  split
  · rw [List.map_map]
    exact List.Perm.refl _
  · rw [List.map_append, ovEntries_fst]
    have hc := cascade_fst_perm w (workingF ao litems fitems) (workingL ao litems)
      (workingL_idx_nodup ao litems hnd)
    exact (List.Perm.append_left _ hc).trans (filter_isSome_isNone_perm ao litems)

theorem processGroup_entries_fst_mem (ao : Nat → Option Nat) (w : Int) (fitems : List FItem)
    (litems : List LItem) (hnd : (litems.map LItem.idx).Nodup) :
    ∀ q ∈ (processGroup ao w fitems litems).entries, q.1 ∈ litems.map LItem.idx := by
  intro q hq
  exact (processGroup_fst_perm ao w fitems litems hnd).mem_iff.mp
    (List.mem_map_of_mem Prod.fst hq)

theorem cascade_snd_mem_working (w : Int) (wf : List FItem) (wl : List LItem)
    (hnd : (wl.map LItem.idx).Nodup) :
    ∀ x ∈ (cascade w wf wl).assigns.map Prod.snd, x ∈ wl.map LItem.idx := by
  intro x hx
  exact (cascade_fst_perm w wf wl hnd).mem_iff.mp ((cascade_snd_sub w wf wl).subset hx)

theorem processGroup_assigns_snd_nodup (ao : Nat → Option Nat) (w : Int) (fitems : List FItem)
    (litems : List LItem) (hnd : (litems.map LItem.idx).Nodup) :
    ((processGroup ao w fitems litems).assigns.map Prod.snd).Nodup := by
  unfold processGroup
  split
  · simp
  · rw [List.map_append, ovAssigns_snd]
    have hwnd := workingL_idx_nodup ao litems hnd
    refine List.Nodup.append ?_ ?_ ?_
    · exact List.Nodup.sublist (List.Sublist.map _ (List.filter_sublist _)) hnd
    · have hperm := cascade_fst_perm w (workingF ao litems fitems) (workingL ao litems) hwnd
      exact List.Nodup.sublist (cascade_snd_sub w _ _) (hperm.symm.nodup hwnd)
    · intro x hx1 hx2
      obtain ⟨it, hit, he⟩ := List.mem_map.mp hx1
      obtain ⟨hitl, hsome⟩ := List.mem_filter.mp hit
      have hx2w := cascade_snd_mem_working w (workingF ao litems fitems)
        (workingL ao litems) hwnd x hx2
      obtain ⟨it2, hit2, he2⟩ := List.mem_map.mp hx2w
      obtain ⟨-, hisnone⟩ := List.mem_filter.mp hit2
      rw [← he] at he2
      rw [he2] at hisnone
      rw [Option.isNone_iff_eq_none] at hisnone
      rw [hisnone] at hsome
      exact absurd hsome (by simp)

theorem processGroup_assigns_snd_mem (ao : Nat → Option Nat) (w : Int) (fitems : List FItem)
    (litems : List LItem) (hnd : (litems.map LItem.idx).Nodup) :
    ∀ p ∈ (processGroup ao w fitems litems).assigns, p.2 ∈ litems.map LItem.idx := by
  unfold processGroup
  split
  · intro p hp
    exact absurd hp (by simp)
  · intro p hp
    rw [List.mem_append] at hp
    cases hp with
    | inl hp =>
      obtain ⟨it, hit, he⟩ := List.mem_filterMap.mp hp
      cases hao : ao it.idx with
      | none => rw [hao] at he; exact absurd he (by simp)
      | some f =>
        rw [hao] at he
        simp only [Option.map_some'] at he
        rw [Option.some_inj] at he
        rw [← he]
        exact List.mem_map_of_mem LItem.idx hit
    | inr hp =>
      have hwnd := workingL_idx_nodup ao litems hnd
      have := cascade_snd_mem_working w (workingF ao litems fitems) (workingL ao litems) hwnd
        p.2 (List.mem_map_of_mem Prod.snd hp)
      exact (List.Sublist.map LItem.idx (List.filter_sublist _)).subset this

theorem processGroup_assigns_fst (P : Nat → Prop) (ao : Nat → Option Nat) (w : Int)
    (fitems : List FItem) (litems : List LItem)
    (hao : ∀ li g, ao li = some g → P g) (hfit : ∀ it ∈ fitems, P it.idx) :
    ∀ p ∈ (processGroup ao w fitems litems).assigns, P p.1 := by
  unfold processGroup
  split
  · intro p hp
    exact absurd hp (by simp)
  · intro p hp
    rw [List.mem_append] at hp
    cases hp with
    | inl hp =>
      obtain ⟨it, hit, he⟩ := List.mem_filterMap.mp hp
      cases hg : ao it.idx with
      | none => rw [hg] at he; exact absurd he (by simp)
      | some f =>
        rw [hg] at he
        simp only [Option.map_some'] at he
        rw [Option.some_inj] at he
        rw [← he]
        exact hao it.idx f hg
    | inr hp =>
      have hm := cascade_assigns_fst_mem w (workingF ao litems fitems) (workingL ao litems) p hp
      obtain ⟨it, hit, he⟩ := List.mem_map.mp hm
      rw [← he]
      exact hfit it ((List.filter_sublist _).subset hit)

theorem processGroup_flightIndex (P : Nat → Prop) (ao : Nat → Option Nat) (w : Int)
    (fitems : List FItem) (litems : List LItem)
    (hao : ∀ li g, ao li = some g → P g) (hfit : ∀ it ∈ fitems, P it.idx) :
    ∀ q ∈ (processGroup ao w fitems litems).entries, ∀ g, q.2.flightIndex = some g → P g := by
  unfold processGroup
  split
  · intro q hq g hg
    obtain ⟨it, -, he⟩ := List.mem_map.mp hq
    rw [← he] at hg
    exact absurd hg (by simp)
  · intro q hq g hg
    rw [List.mem_append] at hq
    cases hq with
    | inl hq =>
      obtain ⟨it, hit, he⟩ := List.mem_filterMap.mp hq
      cases hf : ao it.idx with
      | none => rw [hf] at he; exact absurd he (by simp)
      | some f =>
        rw [hf] at he
        simp only [Option.map_some'] at he
        rw [Option.some_inj] at he
        rw [← he] at hg
        simp at hg
        subst hg
        exact hao it.idx f hf
    | inr hq =>
      have hm := cascade_flightIndex_mem w (workingF ao litems fitems) (workingL ao litems)
        q hq g hg
      obtain ⟨it, hit, he⟩ := List.mem_map.mp hm
      rw [← he]
      exact hfit it ((List.filter_sublist _).subset hit)

/-! ## Global assembly -/

theorem recomputeCore_links (flights : List Flight) (landings : List Landing)
    (ao : Nat → Option Nat) (w : Int) :
    (recomputeCore flights landings ao w).links
      = ((groupKeysOf landings).map fun k =>
          (processGroup ao w (groupFlightItems flights k) (groupLandingItems landings k)).entries).flatten := by
  unfold recomputeCore
  dsimp only
  rw [List.map_map]
  rfl

theorem recomputeCore_assigns (flights : List Flight) (landings : List Landing)
    (ao : Nat → Option Nat) (w : Int) :
    (recomputeCore flights landings ao w).assigns
      = ((groupKeysOf landings).map fun k =>
          (processGroup ao w (groupFlightItems flights k) (groupLandingItems landings k)).assigns).flatten := by
  unfold recomputeCore
  dsimp only
  rw [List.map_map]
  rfl

theorem group_idx_key (landings : List Landing) (k : String × String) (x : Nat)
    (hx : x ∈ (groupLandingItems landings k).map LItem.idx) :
    ∃ l, landings.get? x = some l ∧ lkey l = k := by
  obtain ⟨it, hit, he⟩ := List.mem_map.mp hx
  rw [mem_groupLandingItems] at hit
  exact ⟨it.landing, he ▸ hit.1, hit.2⟩

/-- C7: after any single run of recompute_links, every landing index in
the landing-links map is a valid index into the landing list, every
flight index in either link map is a valid index into the flight list,
and each landing index is assigned to at most one flight: it occurs at
most once across all flights' landing-index lists. -/
theorem link_maps_invariants (flights : List Flight) (landings : List Landing)
    (overrides : Nat → Option Int) (w : Int) :
    (∀ p ∈ (recompute_links flights landings overrides w).links, p.1 < landings.length)
    ∧ (∀ p ∈ (recompute_links flights landings overrides w).links,
        ∀ g, p.2.flightIndex = some g → g < flights.length)
    ∧ (∀ q ∈ (recompute_links flights landings overrides w).assigns, q.1 < flights.length)
    ∧ ((recompute_links flights landings overrides w).assigns.map Prod.snd).Nodup := by
  unfold recompute_links
  refine ⟨?_, ?_, ?_, ?_⟩
  · intro p hp
    rw [recomputeCore_links] at hp
    obtain ⟨part, hpart, hpin⟩ := List.mem_flatten.mp hp
    obtain ⟨k, -, hke⟩ := List.mem_map.mp hpart
    rw [← hke] at hpin
    have hidx := processGroup_entries_fst_mem (appliedOv flights overrides) w
      (groupFlightItems flights k) (groupLandingItems landings k)
      (groupLandingItems_idx_nodup landings k) p hpin
    obtain ⟨l, hl, -⟩ := group_idx_key landings k p.1 hidx
    exact (List.get?_eq_some.mp hl).1
  · intro p hp g hg
    rw [recomputeCore_links] at hp
    obtain ⟨part, hpart, hpin⟩ := List.mem_flatten.mp hp
    obtain ⟨k, -, hke⟩ := List.mem_map.mp hpart
    rw [← hke] at hpin
    exact processGroup_flightIndex (fun g => g < flights.length) (appliedOv flights overrides)
      w (groupFlightItems flights k) (groupLandingItems landings k)
      (fun li g hli => appliedOv_lt flights overrides li g hli)
      (groupFlightItems_idx_lt flights k) p hpin g hg
  · intro q hq
    rw [recomputeCore_assigns] at hq
    obtain ⟨part, hpart, hqin⟩ := List.mem_flatten.mp hq
    obtain ⟨k, -, hke⟩ := List.mem_map.mp hpart
    rw [← hke] at hqin
    exact processGroup_assigns_fst (fun g => g < flights.length) (appliedOv flights overrides)
      w (groupFlightItems flights k) (groupLandingItems landings k)
      (fun li g hli => appliedOv_lt flights overrides li g hli)
      (groupFlightItems_idx_lt flights k) q hqin
  · rw [recomputeCore_assigns, List.map_flatten, List.map_map]
    rw [List.nodup_flatten]
    constructor
    · intro l hl
      obtain ⟨k, -, hke⟩ := List.mem_map.mp hl
      rw [← hke]
      exact processGroup_assigns_snd_nodup (appliedOv flights overrides) w
        (groupFlightItems flights k) (groupLandingItems landings k)
        (groupLandingItems_idx_nodup landings k)
    · refine List.Pairwise.map _ ?_ (groupKeysOf_nodup landings)
      intro k1 k2 hne x hx1 hx2
      have hm1 := processGroup_assigns_snd_mem (appliedOv flights overrides) w
        (groupFlightItems flights k1) (groupLandingItems landings k1)
        (groupLandingItems_idx_nodup landings k1)
      have hm2 := processGroup_assigns_snd_mem (appliedOv flights overrides) w
        (groupFlightItems flights k2) (groupLandingItems landings k2)
        (groupLandingItems_idx_nodup landings k2)
      obtain ⟨p1, hp1, he1⟩ := List.mem_map.mp hx1
      obtain ⟨p2, hp2, he2⟩ := List.mem_map.mp hx2
      have hk1 := group_idx_key landings k1 x (he1 ▸ hm1 p1 hp1)
      have hk2 := group_idx_key landings k2 x (he2 ▸ hm2 p2 hp2)
      obtain ⟨l1, hl1, hkey1⟩ := hk1
      obtain ⟨l2, hl2, hkey2⟩ := hk2
      rw [hl1] at hl2
      cases hl2
      exact hne (hkey1 ▸ hkey2 ▸ rfl)

/-- Witness for C7 on a concrete run with one flight and one landing. -/
theorem link_maps_invariants_witness :
    ((0, (⟨some 0, "unique-date-aircraft"⟩ : LinkInfo))
        ∈ (recompute_links [sampleFlight 1] [sampleLanding "2024-03-10 10:00:00"]
            (fun _ => none) 10).links
      ∧ (0 : Nat) < 1)
    ∧ ((0, 0) ∈ (recompute_links [sampleFlight 1] [sampleLanding "2024-03-10 10:00:00"]
            (fun _ => none) 10).assigns
      ∧ (0 : Nat) < 1) :=
  ⟨⟨by decide,
    (link_maps_invariants [sampleFlight 1] [sampleLanding "2024-03-10 10:00:00"]
      (fun _ => none) 10).1 (0, ⟨some 0, "unique-date-aircraft"⟩) (by decide)⟩,
   ⟨by decide,
    (link_maps_invariants [sampleFlight 1] [sampleLanding "2024-03-10 10:00:00"]
      (fun _ => none) 10).2.2.1 (0, 0) (by decide)⟩⟩

/-! ## Lookup machinery -/

theorem lookup_cons_ne {β : Type} (a k : Nat) (b : β) (l : List (Nat × β)) (h : k ≠ a) :
    ((a, b) :: l).lookup k = l.lookup k := by
  simp [List.lookup_cons, beq_eq_false_iff_ne.mpr h]

theorem lookup_cons_eq {β : Type} (a : Nat) (b : β) (l : List (Nat × β)) :
    ((a, b) :: l).lookup a = some b := by
  simp [List.lookup_cons]

theorem lookup_flatten_group (f : (String × String) → List (Nat × LinkInfo)) (li : Nat)
    (k : String × String) :
    ∀ keys : List (String × String), keys.Nodup → k ∈ keys →
      (∀ k2 ∈ keys, k2 ≠ k → ∀ q ∈ f k2, q.1 ≠ li) →
      ((keys.map f).flatten).lookup li = (f k).lookup li := by
  intro keys
  induction keys with
  | nil => intro _ hk; exact absurd hk (by simp)
  | cons a rest ih =>
    intro hnd hk hother
    rw [List.map_cons, List.flatten_cons, List.lookup_append]
    by_cases ha : a = k
    · subst ha
      have hrest : ((rest.map f).flatten).lookup li = none := by
        rw [List.lookup_eq_none_iff]
        intro p hp
        obtain ⟨part, hpart, hpin⟩ := List.mem_flatten.mp hp
        obtain ⟨k2, hk2, hke⟩ := List.mem_map.mp hpart
        have hk2ne : k2 ≠ a := by
          intro h
          exact (List.nodup_cons.mp hnd).1 (h ▸ hk2)
        have hq := hother k2 (List.mem_cons_of_mem a hk2) hk2ne p (hke ▸ hpin)
        simpa [bne_iff_ne] using fun he => hq he.symm
      rw [hrest, Option.or_none]
    · have hnone : (f a).lookup li = none := by
        rw [List.lookup_eq_none_iff]
        intro p hp
        have hq := hother a (List.mem_cons_self a rest) ha p hp
        simpa [bne_iff_ne] using fun he => hq he.symm
      rw [hnone, Option.none_or]
      refine ih (List.nodup_cons.mp hnd).2 ?_ ?_
      · cases List.mem_cons.mp hk with
        | inl h => exact absurd h.symm ha
        | inr h => exact h
      · intro k2 h2
        exact hother k2 (List.mem_cons_of_mem a h2)

theorem recompute_lookup_group (flights : List Flight) (landings : List Landing)
    (overrides : Nat → Option Int) (w : Int) (li : Nat) (k : String × String)
    (hmem : ∃ it ∈ groupLandingItems landings k, it.idx = li) :
    (recompute_links flights landings overrides w).links.lookup li
      = ((processGroup (appliedOv flights overrides) w (groupFlightItems flights k)
          (groupLandingItems landings k)).entries).lookup li := by
  obtain ⟨it0, hit0, hidx0⟩ := hmem
  obtain ⟨l0, hl0, hlk0⟩ := group_idx_key landings k li
    (hidx0 ▸ List.mem_map_of_mem LItem.idx hit0)
  have hkmem : k ∈ groupKeysOf landings := by
    rw [mem_groupKeysOf]
    obtain ⟨hlt, hget⟩ := List.get?_eq_some.mp hl0
    rw [← hget] at hlk0
    exact hlk0 ▸ List.mem_map_of_mem lkey (List.get_mem landings li hlt)
  unfold recompute_links
  rw [recomputeCore_links]
  refine lookup_flatten_group _ li k (groupKeysOf landings) (groupKeysOf_nodup landings)
    hkmem ?_
  intro k2 _ hk2ne q hq hqe
  have hidx := processGroup_entries_fst_mem (appliedOv flights overrides) w
    (groupFlightItems flights k2) (groupLandingItems landings k2)
    (groupLandingItems_idx_nodup landings k2) q hq
  obtain ⟨l2, hl2, hlk2⟩ := group_idx_key landings k2 q.1 hidx
  rw [hqe, hl0] at hl2
  cases hl2
  exact hk2ne (hlk2 ▸ hlk0 ▸ rfl)

theorem lookup_ovEntries (ao : Nat → Option Nat) (li f : Nat) :
    ∀ litems : List LItem, (∃ it ∈ litems, it.idx = li) → ao li = some f →
      ((litems.filterMap fun it => (ao it.idx).map fun g =>
        (it.idx, (⟨some g, "manual"⟩ : LinkInfo))).lookup li) = some ⟨some f, "manual"⟩ := by
  intro litems
  induction litems with
  | nil =>
    intro h
    obtain ⟨it, hit, -⟩ := h
    exact absurd hit (by simp)
  | cons x rest ih =>
    intro hex hao
    rw [List.filterMap_cons]
    cases hao2 : ao x.idx with
    | none =>
      obtain ⟨it, hit, hidx⟩ := hex
      cases List.mem_cons.mp hit with
      | inl h =>
        rw [← h, hidx] at hao2
        rw [hao2] at hao
        exact absurd hao (by simp)
      | inr h =>
        exact ih ⟨it, h, hidx⟩ hao
    | some g =>
      simp only [Option.map_some']
      by_cases hx : x.idx = li
      · rw [hx] at hao2
        rw [hao] at hao2
        rw [Option.some_inj] at hao2
        rw [hx, ← hao2]
        exact lookup_cons_eq li _ _
      · rw [lookup_cons_ne x.idx li _ _ (fun he => hx he.symm)]
        obtain ⟨it, hit, hidx⟩ := hex
        cases List.mem_cons.mp hit with
        | inl h => exact absurd (h ▸ hidx) hx
        | inr h => exact ih ⟨it, h, hidx⟩ hao

theorem processGroup_lookup_manual (ao : Nat → Option Nat) (w : Int) (fitems : List FItem)
    (litems : List LItem) (li f : Nat) (hne : fitems.length ≠ 0)
    (hex : ∃ it ∈ litems, it.idx = li) (hao : ao li = some f) :
    ((processGroup ao w fitems litems).entries).lookup li = some ⟨some f, "manual"⟩ := by
  unfold processGroup
  rw [if_neg hne]
  dsimp only
  rw [List.lookup_append]
  rw [lookup_ovEntries ao li f litems hex hao]
  rfl

theorem processGroup_assigns_manual_mem (ao : Nat → Option Nat) (w : Int) (fitems : List FItem)
    (litems : List LItem) (li f : Nat) (hne : fitems.length ≠ 0)
    (hex : ∃ it ∈ litems, it.idx = li) (hao : ao li = some f) :
    (f, li) ∈ (processGroup ao w fitems litems).assigns := by
  unfold processGroup
  rw [if_neg hne]
  dsimp only
  rw [List.mem_append]
  left
  obtain ⟨it, hit, hidx⟩ := hex
  refine List.mem_filterMap.mpr ⟨it, hit, ?_⟩
  rw [hidx, hao]
  rfl

/-- Core of the amended C2 and C10: a manual override on landing `li`
pointing at an in-range flight index is applied with confidence "manual"
and recorded in the flight's landing-index list, provided the landing's
own (date, normalized aircraft) group contains at least one flight
declaring a landing. -/
theorem override_applied_core (flights : List Flight) (landings : List Landing)
    (overrides : Nat → Option Int) (w : Int) (li : Nat) (ld : Landing) (f : Int)
    (hld : landings.get? li = some ld)
    (hov : overrides li = some f) (h0 : 0 ≤ f) (hlt : f < (flights.length : Int))
    (hgrp : groupFlightItems flights (lkey ld) ≠ []) :
    (recompute_links flights landings overrides w).links.lookup li
        = some ⟨some f.toNat, "manual"⟩
    ∧ li ∈ flightLandings (recompute_links flights landings overrides w) f.toNat := by
  have hao : appliedOv flights overrides li = some f.toNat := by
    unfold appliedOv
    rw [hov]
    exact if_pos ⟨h0, hlt⟩
  have hmem : ∃ it ∈ groupLandingItems landings (lkey ld), it.idx = li := by
    refine ⟨⟨li, ld⟩, ?_, rfl⟩
    rw [mem_groupLandingItems]
    exact ⟨hld, rfl⟩
  have hne : (groupFlightItems flights (lkey ld)).length ≠ 0 := by
    intro h
    exact hgrp (List.length_eq_zero.mp h)
  have hkmem : lkey ld ∈ groupKeysOf landings := by
    rw [mem_groupKeysOf]
    obtain ⟨hlt2, hget⟩ := List.get?_eq_some.mp hld
    exact hget ▸ List.mem_map_of_mem lkey (List.get_mem landings li hlt2)
  constructor
  · rw [recompute_lookup_group flights landings overrides w li (lkey ld) hmem]
    exact processGroup_lookup_manual _ w _ _ li f.toNat hne hmem hao
  · unfold flightLandings
    refine List.mem_map.mpr ⟨(f.toNat, li), ?_, rfl⟩
    rw [List.mem_filter]
    constructor
    · unfold recompute_links
      rw [recomputeCore_assigns]
      rw [List.mem_flatten]
      refine ⟨_, List.mem_map.mpr ⟨lkey ld, hkmem, rfl⟩, ?_⟩
      exact processGroup_assigns_manual_mem _ w _ _ li f.toNat hne hmem hao
    · simp

/-- C2 (amended): for every landing index with a manual-override entry
referencing a flight index valid against the current flight list,
provided the landing's (date, normalized aircraft) group contains at
least one flight declaring a landing, recompute_links assigns that
landing to that flight with confidence "manual" and appends the landing
index to that flight's entry in the flight-to-landing map, even when the
override crosses group boundaries (the target flight need not share the
landing's group).  Without the group proviso the claim fails: a landing
in a flight-less group is marked "unmatched" before overrides apply. -/
theorem manual_override_applied (flights : List Flight) (landings : List Landing)
    (overrides : Nat → Option Int) (w : Int) (li : Nat) (ld : Landing) (f : Int)
    (hld : landings.get? li = some ld)
    (hov : overrides li = some f) (h0 : 0 ≤ f) (hlt : f < (flights.length : Int))
    (hgrp : groupFlightItems flights (lkey ld) ≠ []) :
    (recompute_links flights landings overrides w).links.lookup li
        = some ⟨some f.toNat, "manual"⟩
    ∧ li ∈ flightLandings (recompute_links flights landings overrides w) f.toNat :=
  override_applied_core flights landings overrides w li ld f hld hov h0 hlt hgrp

/-- Witness for the amended C2: one flight, one landing, override 0 → 0. -/
theorem manual_override_applied_witness :
    (recompute_links [sampleFlight 1] [sampleLanding "2024-03-10 10:00:00"]
        (singleOverride 0 0) 10).links.lookup 0 = some ⟨some 0, "manual"⟩
    ∧ 0 ∈ flightLandings (recompute_links [sampleFlight 1] [sampleLanding "2024-03-10 10:00:00"]
        (singleOverride 0 0) 10) 0 :=
  manual_override_applied [sampleFlight 1] [sampleLanding "2024-03-10 10:00:00"]
    (singleOverride 0 0) 10 0 (sampleLanding "2024-03-10 10:00:00") 0
    (by decide) (by decide) (by decide) (by decide) (by decide)

/-- C10 (amended): a manual override may validly target a flight whose
declared landing count is zero: the apply-time bounds check is against
the full flight list, while the heuristic grouping only contains flights
declaring at least one landing.  Provided the landing's own group
contains at least one flight declaring a landing, an override to a
zero-declared-landings flight is applied with confidence "manual" and
that flight receives the landing in the flight-to-landing map.  Without
that proviso the claim fails: if the landing's group has no flights the
group-empty exit runs before the override loop. -/
theorem zero_landing_flight_override_applied (flights : List Flight) (landings : List Landing)
    (overrides : Nat → Option Int) (w : Int) (li : Nat) (ld : Landing) (f : Int)
    (fl : Flight)
    (hld : landings.get? li = some ld)
    (hov : overrides li = some f) (h0 : 0 ≤ f) (hlt : f < (flights.length : Int))
    (hfl : flights.get? f.toNat = some fl) (hzero : fl.landings = 0)
    (hgrp : groupFlightItems flights (lkey ld) ≠ []) :
    (recompute_links flights landings overrides w).links.lookup li
        = some ⟨some f.toNat, "manual"⟩
    ∧ li ∈ flightLandings (recompute_links flights landings overrides w) f.toNat :=
  override_applied_core flights landings overrides w li ld f hld hov h0 hlt hgrp

/-- Witness for the amended C10: flight index 1 declares zero landings
and still receives landing 1 through the override, because the group
also contains flight 0 which declares one landing. -/
theorem zero_landing_flight_override_applied_witness :
    (sampleFlight 0).landings = 0
    ∧ (recompute_links [sampleFlight 1, sampleFlight 0]
        [sampleLanding "2024-03-10 10:00:00", sampleLanding "2024-03-10 10:03:00"]
        (singleOverride 1 1) 10).links.lookup 1 = some ⟨some 1, "manual"⟩
    ∧ 1 ∈ flightLandings (recompute_links [sampleFlight 1, sampleFlight 0]
        [sampleLanding "2024-03-10 10:00:00", sampleLanding "2024-03-10 10:03:00"]
        (singleOverride 1 1) 10) 1 :=
  ⟨by decide,
   zero_landing_flight_override_applied [sampleFlight 1, sampleFlight 0]
    [sampleLanding "2024-03-10 10:00:00", sampleLanding "2024-03-10 10:03:00"]
    (singleOverride 1 1) 10 1 (sampleLanding "2024-03-10 10:03:00") 1 (sampleFlight 0)
    (by decide) (by decide) (by decide) (by decide) (by decide) (by decide) (by decide)⟩

/-! ## Sequence heuristic (C4) -/

theorem cascade_eq_seq (w : Int) (wf : List FItem) (wl : List LItem)
    (h2 : 2 ≤ wf.length) (hlen : wf.length = wl.length) :
    cascade w wf wl
      = ⟨(wl.zip wf).map fun p => (p.1.idx, ⟨some p.2.idx, "sequence-assumed"⟩),
         (wl.zip wf).map fun p => (p.2.idx, p.1.idx)⟩ := by
  have h0 : ¬(wf.length = 0 ∧ 0 < wl.length) := by
    intro h
    omega
  unfold cascade
  rw [if_neg h0]
  rcases wf with _ | ⟨f1, _ | ⟨f2, wfr⟩⟩
  · simp at h2
  · simp at h2
  · rcases wl with _ | ⟨l1, _ | ⟨l2, wlr⟩⟩
    · simp at hlen
    · simp at hlen
    · show cascadeHeuristics w (f1 :: f2 :: wfr) (l1 :: l2 :: wlr) = _
      unfold cascadeHeuristics
      rw [if_pos ⟨hlen, by simp⟩]

theorem lookup_zip_entries (s : String) :
    ∀ (wl : List LItem) (wf : List FItem) (i : Nat) (hi : i < wl.length)
      (hf : i < wf.length), (wl.map LItem.idx).Nodup →
      ((wl.zip wf).map fun p => (p.1.idx, (⟨some p.2.idx, s⟩ : LinkInfo))).lookup
          ((wl.get ⟨i, hi⟩).idx)
        = some ⟨some ((wf.get ⟨i, hf⟩).idx), s⟩ := by
  intro wl
  induction wl with
  | nil =>
    intro wf i hi
    exact absurd hi (by simp)
  | cons x rest ih =>
    intro wf i hi hf hnd
    cases wf with
    | nil => exact absurd hf (by simp)
    | cons y wfr =>
      rw [List.zip_cons_cons, List.map_cons]
      have hnd2 : x.idx ∉ rest.map LItem.idx ∧ (rest.map LItem.idx).Nodup := by
        rw [List.map_cons, List.nodup_cons] at hnd
        exact hnd
      cases i with
      | zero =>
        exact lookup_cons_eq x.idx _ _
      | succ n =>
        rw [List.get_cons_succ, List.get_cons_succ]
        have hn : n < rest.length := by simpa using hi
        have hmem : (rest.get ⟨n, hn⟩).idx ∈ rest.map LItem.idx :=
          List.mem_map_of_mem LItem.idx (List.get_mem rest n hn)
        have hne : (rest.get ⟨n, hn⟩).idx ≠ x.idx := by
          intro he
          exact hnd2.1 (he ▸ hmem)
        rw [lookup_cons_ne x.idx _ _ _ hne]
        exact ih wfr n hn (by simpa using hf) hnd2.2

theorem processGroup_lookup_seq (ao : Nat → Option Nat) (w : Int) (fitems : List FItem)
    (litems : List LItem) (i : Nat) (hnd : (litems.map LItem.idx).Nodup)
    (hlen : (workingF ao litems fitems).length = (workingL ao litems).length)
    (h2 : 2 ≤ (workingF ao litems fitems).length)
    (hi : i < (workingL ao litems).length) (hf : i < (workingF ao litems fitems).length) :
    ((processGroup ao w fitems litems).entries).lookup (((workingL ao litems).get ⟨i, hi⟩).idx)
      = some ⟨some (((workingF ao litems fitems).get ⟨i, hf⟩).idx), "sequence-assumed"⟩ := by
  have hfne : fitems.length ≠ 0 := by
    intro h0
    rw [List.length_eq_zero.mp h0] at h2
    simp [workingF] at h2
  unfold processGroup
  rw [if_neg hfne]
  dsimp only
  rw [List.lookup_append]
  have hli_none : (ao (((workingL ao litems).get ⟨i, hi⟩).idx)).isNone = true := by
    have hmem := List.get_mem (workingL ao litems) i hi
    unfold workingL at hmem
    exact (List.mem_filter.mp hmem).2
  have hov_none : (litems.filterMap fun it => (ao it.idx).map fun g =>
      (it.idx, (⟨some g, "manual"⟩ : LinkInfo))).lookup
        (((workingL ao litems).get ⟨i, hi⟩).idx) = none := by
    rw [List.lookup_eq_none_iff]
    intro p hp
    obtain ⟨it, hit, he⟩ := List.mem_filterMap.mp hp
    cases hg : ao it.idx with
    | none =>
      rw [hg] at he
      exact absurd he (by simp)
    | some g =>
      rw [hg] at he
      simp only [Option.map_some'] at he
      rw [Option.some_inj] at he
      rw [bne_iff_ne]
      intro hkey
      rw [← he] at hkey
      dsimp only at hkey
      rw [hkey] at hli_none
      rw [hg] at hli_none
      exact absurd hli_none (by simp)
  rw [hov_none, Option.none_or]
  rw [cascade_eq_seq w (workingF ao litems fitems) (workingL ao litems) h2 hlen]
  exact lookup_zip_entries "sequence-assumed" (workingL ao litems) (workingF ao litems fitems)
    i hi hf (workingL_idx_nodup ao litems hnd)

/-- C4 (amended): for every group whose post-override working pool has an
equal number of flights and landings, at least two of each, the engine
pairs them by position — the i-th landing in ascending time order with
the i-th flight in original encounter order — assigning every such
landing the confidence "sequence-assumed"; no later heuristic runs in
that group.  The count-one case is excluded: there the earlier
one-to-one rule fires with confidence "unique-date-aircraft". -/
theorem equal_counts_sequence_assumed (flights : List Flight) (landings : List Landing)
    (overrides : Nat → Option Int) (w : Int) (k : String × String) (i : Nat)
    (hlen : (workingF (appliedOv flights overrides) (groupLandingItems landings k)
        (groupFlightItems flights k)).length
      = (workingL (appliedOv flights overrides) (groupLandingItems landings k)).length)
    (h2 : 2 ≤ (workingF (appliedOv flights overrides) (groupLandingItems landings k)
        (groupFlightItems flights k)).length)
    (hi : i < (workingL (appliedOv flights overrides) (groupLandingItems landings k)).length)
    (hf : i < (workingF (appliedOv flights overrides) (groupLandingItems landings k)
        (groupFlightItems flights k)).length) :
    (recompute_links flights landings overrides w).links.lookup
        (((workingL (appliedOv flights overrides) (groupLandingItems landings k)).get
          ⟨i, hi⟩).idx)
      = some ⟨some (((workingF (appliedOv flights overrides) (groupLandingItems landings k)
          (groupFlightItems flights k)).get ⟨i, hf⟩).idx), "sequence-assumed"⟩ := by
  have hmem : ∃ it ∈ groupLandingItems landings k,
      it.idx = ((workingL (appliedOv flights overrides)
        (groupLandingItems landings k)).get ⟨i, hi⟩).idx := by
    refine ⟨(workingL (appliedOv flights overrides) (groupLandingItems landings k)).get ⟨i, hi⟩,
      ?_, rfl⟩
    have hw := List.get_mem (workingL (appliedOv flights overrides)
      (groupLandingItems landings k)) i hi
    exact (List.filter_sublist _).subset hw
  rw [recompute_lookup_group flights landings overrides w _ k hmem]
  exact processGroup_lookup_seq (appliedOv flights overrides) w (groupFlightItems flights k)
    (groupLandingItems landings k) i (groupLandingItems_idx_nodup landings k) hlen h2 hi hf

/-- Witness for the amended C4 on the two-flight two-landing group. -/
theorem equal_counts_sequence_assumed_witness :
    (2 ≤ (workingF (appliedOv [sampleFlight 1, sampleFlight 1] (fun _ => none))
        (groupLandingItems [sampleLanding "2024-03-10 10:00:00",
          sampleLanding "2024-03-10 10:03:00"] ("2024-03-10", "C172"))
        (groupFlightItems [sampleFlight 1, sampleFlight 1] ("2024-03-10", "C172"))).length)
    ∧ (recompute_links [sampleFlight 1, sampleFlight 1]
        [sampleLanding "2024-03-10 10:00:00", sampleLanding "2024-03-10 10:03:00"]
        (fun _ => none) 10).links.lookup
        (((workingL (appliedOv [sampleFlight 1, sampleFlight 1] (fun _ => none))
          (groupLandingItems [sampleLanding "2024-03-10 10:00:00",
            sampleLanding "2024-03-10 10:03:00"] ("2024-03-10", "C172"))).get
          ⟨0, by decide⟩).idx)
      = some ⟨some (((workingF (appliedOv [sampleFlight 1, sampleFlight 1] (fun _ => none))
          (groupLandingItems [sampleLanding "2024-03-10 10:00:00",
            sampleLanding "2024-03-10 10:03:00"] ("2024-03-10", "C172"))
          (groupFlightItems [sampleFlight 1, sampleFlight 1] ("2024-03-10", "C172"))).get
          ⟨0, by decide⟩).idx), "sequence-assumed"⟩ :=
  ⟨by decide,
   equal_counts_sequence_assumed [sampleFlight 1, sampleFlight 1]
    [sampleLanding "2024-03-10 10:00:00", sampleLanding "2024-03-10 10:03:00"]
    (fun _ => none) 10 ("2024-03-10", "C172") 0 (by decide) (by decide) (by decide) (by decide)⟩

/-- Counterexample for C4: a group whose working pool has an equal,
positive number of flights and landings — namely one of each — is
consumed by the earlier one-to-one rule with confidence
"unique-date-aircraft", not "sequence-assumed". -/
theorem one_to_one_not_sequence_assumed :
    (workingF (appliedOv [sampleFlight 1] (fun _ => none))
        (groupLandingItems [sampleLanding "2024-03-10 09:00:00"] ("2024-03-10", "C172"))
        (groupFlightItems [sampleFlight 1] ("2024-03-10", "C172"))).length = 1
    ∧ (workingL (appliedOv [sampleFlight 1] (fun _ => none))
        (groupLandingItems [sampleLanding "2024-03-10 09:00:00"] ("2024-03-10", "C172"))).length
      = 1
    ∧ (recompute_links [sampleFlight 1] [sampleLanding "2024-03-10 09:00:00"]
        (fun _ => none) 10).links.lookup 0 = some ⟨some 0, "unique-date-aircraft"⟩
    ∧ (recompute_links [sampleFlight 1] [sampleLanding "2024-03-10 09:00:00"]
        (fun _ => none) 10).links.lookup 0 ≠ some ⟨some 0, "sequence-assumed"⟩ := by
  decide

end Pilog
